import Mathlib

/-!
Verification of the MQTT–Modbus gateway (broker in JavaScript, field agent in C
for ESP32) against its natural-language specification.

The development shallowly embeds the program:
* machine integers are `Nat`/`Int` (the C `uint16_t` operations in the CRC and
  timeout code never overflow for the inputs they receive, which is recorded at
  each definition);
* JavaScript objects are association lists of string keys and `JSValue`s with
  first-match lookup and in-place update, mirroring property access;
* fallible or partially-defined JavaScript operations are modelled with
  `Option` or with an explicitly commented default.

Definitions keep the source names.  The two keyword JSON tables
(`modbusKeywords.json` and `diagnosisKeywords.json`, required by
`keywordsMap.js`, `requestFormatter.js`, `diagnosisMap.js` and
`schemaManager.js`) are not among the provided sources; the definitions that
stand for their contents are marked `Modelled from the spec:` and follow the
specification's registry description.  Every function of the repository
itself, `keywordsMap.js`'s `getKey` and `modbusResponseDebufferizer.js`
included, is translated from its source file.
-/

namespace MqttModbus

/-! ## Field agent: Modbus CRC-16 (`modbusserial.c`, `modbus_evaluateCRC`) -/

/-- One iteration of the inner loop of `modbus_evaluateCRC`:
`if (CRC & 0x01) CRC = (CRC >> 1) ^ polynomial; else CRC >>= 1;`
with `polynomial = 0xA001`.  All operations stay below `2^16`, so plain `Nat`
is a faithful model of the C `uint16_t` arithmetic. -/
def crcRound (CRC : Nat) : Nat :=
  if CRC &&& 0x01 = 1 then (CRC >>> 1) ^^^ 0xA001 else CRC >>> 1

/-- One iteration of the outer loop of `modbus_evaluateCRC`:
`CRC ^= data[byte]` followed by eight inner-loop rounds. -/
def crcByteStep (CRC byte : Nat) : Nat :=
  crcRound^[8] (CRC ^^^ byte)

/-- The field agent's CRC: `modbus_evaluateCRC(data, length)` processes each
byte of the buffer starting from `CRC = 0xFFFF`. -/
def modbus_evaluateCRC (data : List Nat) : Nat :=
  data.foldl crcByteStep 0xFFFF

/-- `lowByte(word)` from `modbusserial.c`: `(uint8_t)(word & 0x00FF)`. -/
def lowByte (word : Nat) : Nat := word &&& 0x00FF

/-- `highByte(word)` from `modbusserial.c`: `(uint8_t)((word >> 8) & 0x00FF)`. -/
def highByte (word : Nat) : Nat := (word >>> 8) &&& 0x00FF

/-! ## Field agent: inter-symbol timeout (`modbus_calculateIntersymbolTimeout`) -/

/-- The ESP-IDF `uart_config_t` fields read by the firmware, plus the word
geometry fields that the specification's formula mentions.  `parity_disable`
is true when `config->parity == UART_PARITY_DISABLE`. -/
structure uart_config_t where
  baud_rate : Nat
  parity_disable : Bool
  data_bits : Nat
  stop_bits : Nat
deriving Repr, DecidableEq

/-- `modbus_calculateIntersymbolTimeout` from `modbusserial.c`.  The C code
fixes `data_bits = 8` and `stop_bits = 1` locally and reads only the parity
flag and baud rate from the configuration.  It computes
`(uint16_t)((double)1500.0 * (data_bits + parity_bits + stop_bits) / baud_rate)`
— the cast truncates toward zero, which for these integer operands equals `Nat`
floor division (the numerator is at most `15000`, far below any double rounding
that could reach the next integer, and below `2^16`) — and returns `1` instead
of `0`. -/
def modbus_calculateIntersymbolTimeout (config : uart_config_t) : Nat :=
  let data_bits := 8
  let parity_bits := if config.parity_disable then 0 else 1
  let stop_bits := 1
  let timeout_ms := (1500 * (data_bits + parity_bits + stop_bits)) / config.baud_rate
  if timeout_ms = 0 then 1 else timeout_ms

/-- Modelled from the spec: the claimed formula for the inter-symbol timeout,
`max(1 ms, ceil(1500 * (data_bits + parity_bits + stop_bits) / baud_rate))`,
with every word-geometry field taken from the configuration.  This definition
follows the specification's words and is compared against
`modbus_calculateIntersymbolTimeout`, which is translated from the source. -/
def specIntersymbolTimeout (config : uart_config_t) : Nat :=
  let parity_bits := if config.parity_disable then 0 else 1
  let bits := config.data_bits + parity_bits + config.stop_bits
  max 1 ((1500 * bits + config.baud_rate - 1) / config.baud_rate)

/-! ## Field agent: the MQTT handler (`main.c`, `gatewayHandler`) -/

/-- The 4-byte ASCII body `"Null"` that the firmware substitutes for a failed
exchange (`memcpy(response, "Null", 4)`). -/
def nullBody : List Nat := [0x4E, 0x75, 0x6C, 0x6C]

/-- `gatewayHandler` from `main.c`, as a function from the inbound MQTT payload
`data` and the byte sequence `uartReply` delivered by
`modbus_readResponsePacket` to the payload published back (or `none` when the
message carries the device-origin tag `0x01` and is ignored).

Mirrored control flow:
* messages whose first byte is `0x01` are ignored;
* the tag-stripped payload gets the CRC appended (low byte first) and is sent
  on the UART — recorded in `payload` below, which the published result does
  not depend on;
* the retry loop runs exactly once (`attempts < 1`); its CRC-validity check
  (`responseLen > 0 && !modbus_evaluateCRC(response, responseLen)`) only
  decides an early `break` and has no effect on what is published;
* only `responseLen < 1` switches to the `"Null"` body (with `responseLen`
  forced to 6, so that `responseLen - 2 = 4` bytes of it are kept);
* the published message is the tag `0x01` followed by the first
  `responseLen - 2` bytes of the response buffer. -/
def gatewayHandler (data uartReply : List Nat) : Option (List Nat) :=
  if data.headD 0 = 0x01 then none
  else
    let adu := data.drop 1
    let crc := modbus_evaluateCRC adu
    let payload := adu ++ [lowByte crc, highByte crc]
    let _sentOnUart := payload
    let response := uartReply
    let responseLen := response.length
    let _validExchange := responseLen > 0 && modbus_evaluateCRC response = 0
    if responseLen < 1 then
      some (0x01 :: nullBody)
    else
      some (0x01 :: response.take (responseLen - 2))

/-! ## Encoder: `modbusRequestEncoder.js` -/

/-- The typed view of a canonical (terse-form) request object: the eight
canonical fields that `modbusRequestEncoder.js` reads from the parsed request.
Absent JavaScript properties are `none`. -/
structure CanonicalRequest where
  id : Int
  fn : String
  dt : Option String
  rg : Option (Int × Int)
  ls : Option (List Int)
  dv : Option (List Int)
  sf : Option String
  pk : Option (List Int)
deriving Repr, DecidableEq

/-- JavaScript `list.sort((a, b) => a - b)`: sort numerically ascending.  Any
ascending sort computes the same function on integer lists (equal elements are
indistinguishable), so the structurally recursive insertion sort is used. -/
def sortJS (list : List Int) : List Int :=
  list.insertionSort (fun a b => a ≤ b)

/-- The loop body of `IORequestEncoder.getRangesFromList`, running over the
sorted list with the open run starting at `rangeStart`.  The JavaScript
condition `target[i] !== target[i + 1] - 1` is true at the last element
(`target[i + 1]` is `undefined`, so the right side is `NaN`), which closes the
final run. -/
def rangesAux (rangeStart : Int) : List Int → List (Int × Int)
  | [] => []
  | [a] => [(rangeStart, a - rangeStart + 1)]
  | a :: b :: rest =>
    if a = b - 1 then rangesAux rangeStart (b :: rest)
    else (rangeStart, a - rangeStart + 1) :: rangesAux b (b :: rest)

/-- `IORequestEncoder.getRangesFromList`: sort a copy of the list ascending and
split it into ranges `(start, length)`. -/
def getRangesFromList (list : List Int) : List (Int × Int) :=
  match sortJS list with
  | [] => []
  | a :: rest => rangesAux a (a :: rest)

/-- Specification-side notion for claim C4: whether address `x` is covered by
one of the ranges `(start, length)`. -/
def covers (ranges : List (Int × Int)) (x : Int) : Bool :=
  ranges.any fun r => decide (r.1 ≤ x) && decide (x < r.1 + r.2)

/-- Specification-side notion for claim C4: the later left endpoints of the
maximal contiguous runs of the sorted list `a :: t` — each element that does
not extend the previous one by exactly one. -/
def leftsAux : Int → List Int → List Int
  | _, [] => []
  | a, b :: rest => (if a = b - 1 then [] else [b]) ++ leftsAux b rest

/-- Specification-side notion for claim C4: all left endpoints of the maximal
contiguous runs of the sorted list `a :: t`, the head included. -/
def lefts (a : Int) (t : List Int) : List Int := a :: leftsAux a t

/-- `IORequestEncoder.getRanges`: a range request becomes the single range
`(start, end - start + 1)`; a list request is coalesced by
`getRangesFromList`.  With neither property present the JavaScript function
returns `undefined`; that case is unreachable for validated requests and is
modelled as the empty list. -/
def getRanges (request : CanonicalRequest) : List (Int × Int) :=
  match request.rg with
  | some (start, stop) => [(start, stop - start + 1)]
  | none =>
    match request.ls with
    | some list => getRangesFromList list
    | none => []

/-- `IORequestEncoder.determineModbusFunction`: look up `fn ++ dt` in the
function map.  A missing `dt` concatenates as the string `"undefined"` in
JavaScript and misses the map; a miss is modelled as `none`. -/
def determineModbusFunction (request : CanonicalRequest) : Option Int :=
  let key := request.fn ++ (request.dt.getD "undefined")
  if key = "r" ++ "bo" then some 0x01
  else if key = "r" ++ "bi" then some 0x02
  else if key = "r" ++ "no" then some 0x03
  else if key = "r" ++ "ni" then some 0x04
  else if key = "u" ++ "bo" then some 0x0F
  else if key = "u" ++ "no" then some 0x10
  else none

/-- `IORequestEncoder.encodeIORequest`: one abstract frame
`[id, code, start, count]` per range, returned together with the ranges.
A function-map miss (which in JavaScript would embed `undefined` in the
frame) is modelled as `none`. -/
def encodeIORequest (request : CanonicalRequest) :
    Option (List (List Int) × List (Int × Int)) :=
  (determineModbusFunction request).map fun mbFunction =>
    let ranges := getRanges request
    (ranges.map fun range => [request.id, mbFunction, range.1, range.2], ranges)

/-- `WritingRequestEncoder.getData`: with a range, the values array is attached
whole; with a list, each range position `range[0] + i` is looked up in the
original list and the value at the same index of `dv` is taken
(`request[VALUES][request[LIST].indexOf(range[0] + i)]`).  When `indexOf`
returns `-1` JavaScript reads `undefined`; that is modelled by the default `0`
and is unreachable because the ranges cover exactly the list. -/
def getData (request : CanonicalRequest) (ranges : List (Int × Int)) :
    List (List Int) :=
  match request.rg with
  | some _ => [request.dv.getD []]
  | none =>
    ranges.map fun range =>
      (List.range range.2.toNat).map fun i =>
        (request.dv.getD []).getD
          ((request.ls.getD []).indexOf (range.1 + (i : Int))) 0

/-- `ReadingRequestEncoder.encode`. -/
def ReadingRequestEncoder_encode (request : CanonicalRequest) :
    Option (List (List Int)) :=
  (encodeIORequest request).map (·.1)

/-- `WritingRequestEncoder.encode`: append the aligned data array to each
frame. -/
def WritingRequestEncoder_encode (request : CanonicalRequest) :
    Option (List (List Int)) :=
  (encodeIORequest request).map fun pr =>
    (pr.1.zip (getData request pr.2)).map fun pd => pd.1 ++ pd.2

/-- Modelled from the spec: the diagnosis subfunction table
(`diagnosisKeywords.json`, consumed by `diagnosisMap.js`) is not in the
provided sources.  The spec names one subfunction: terse token `rqdt`
(Return Query Data), code `0x0000`, data-fetching.  Entries are
`(terse, verbose, code, fetchesData)`. -/
def diagnosisKeywords : List (String × String × Int × Bool) :=
  [("rqdt", "return-query-data", 0x0000, true)]

/-- `diagnosisMap` from `diagnosisMap.js`: terse subfunction token to code. -/
def diagnosisMap (subfunction : String) : Option Int :=
  (diagnosisKeywords.find? fun e => e.1 = subfunction).map (·.2.2.1)

/-- `dataFetcherSubfunctionMap` from `diagnosisMap.js`: terse subfunction token
to its data-fetching flag. -/
def dataFetcherSubfunctionMap (subfunction : String) : Option Bool :=
  (diagnosisKeywords.find? fun e => e.1 = subfunction).map (·.2.2.2)

/-- `DiagnosisRequestEncoder.encode`:
`[[id, 0x08, diagnosisMap[sf], 0x0000]]`.  An unknown subfunction (undefined
lookup in JavaScript) is modelled as `none`; the validator rejects it first. -/
def DiagnosisRequestEncoder_encode (request : CanonicalRequest) :
    Option (List (List Int)) :=
  (diagnosisMap (request.sf.getD "undefined")).map fun code =>
    [[request.id, 0x08, code, 0x0000]]

/-- `RawModbusRequestEncoder.encode`: `[[id, ...pk]]`. -/
def RawModbusRequestEncoder_encode (request : CanonicalRequest) :
    Option (List (List Int)) :=
  some [[request.id] ++ request.pk.getD []]

/-- `ModbusPacketConstructor.parse`: dispatch on the canonical function token
(`mb.READ = "r"`, `mb.WRITE = "u"`, `mb.DIAGNOSIS = "d"`, `mb.MODBUS = "m"`;
the tokens come from the keyword registry and are fixed by the spec's data
model).  An unknown token leaves `encoder` undefined in JavaScript; modelled
as `none`. -/
def ModbusPacketConstructor_parse (request : CanonicalRequest) :
    Option (List (List Int)) :=
  if request.fn = "r" then ReadingRequestEncoder_encode request
  else if request.fn = "u" then WritingRequestEncoder_encode request
  else if request.fn = "d" then DiagnosisRequestEncoder_encode request
  else if request.fn = "m" then RawModbusRequestEncoder_encode request
  else none

/-! ## Bufferiser: `modbusPacketBufferizer.js`

Node's `Buffer.writeUInt8`/`writeUInt16BE` assert their value range and throw
outside it; the embeddings below reduce modulo the width instead, which agrees
with the source on every value the pipeline produces. -/

/-- One byte of a `Buffer.writeUInt8`. -/
def writeUInt8 (value : Int) : Nat := (value % 256).toNat

/-- Two bytes of a `Buffer.writeUInt16BE` (big-endian). -/
def writeUInt16BE (value : Int) : List Nat :=
  let w := (value % 65536).toNat
  [w / 256, w % 256]

/-- `IORequestBufferizer.toBuffer`: allocate `bufferSize` zeroed bytes and
write `packet[0]`, `packet[1]` as bytes and `packet[2]`, `packet[3]`
big-endian at offsets 0, 1, 2 and 4. -/
def IORequestBufferizer_toBuffer (parsedPacket : List Int) (bufferSize : Nat) :
    List Nat :=
  [writeUInt8 (parsedPacket.getD 0 0), writeUInt8 (parsedPacket.getD 1 0)]
    ++ writeUInt16BE (parsedPacket.getD 2 0)
    ++ writeUInt16BE (parsedPacket.getD 3 0)
    ++ List.replicate (bufferSize - 6) 0

/-- `ReadingRequestBufferizer.toBuffer`: a fixed six-byte buffer. -/
def ReadingRequestBufferizer_toBuffer (parsedPacket : List Int) : List Nat :=
  IORequestBufferizer_toBuffer parsedPacket 6

/-- `DiagnosisRequestBufferizer.toBuffer`: a fixed six-byte buffer. -/
def DiagnosisRequestBufferizer_toBuffer (parsedPacket : List Int) : List Nat :=
  IORequestBufferizer_toBuffer parsedPacket 6

/-- The byte assembled from up to eight data values, least significant bit
first (`encodedByte |= 1 << (i % 8)` for each nonzero value). -/
def bitsToByte (values : List Int) : Nat :=
  (List.range 8).foldl
    (fun acc i => if values.getD i 0 ≠ 0 then acc + 2 ^ i else acc) 0

/-- The LSB-first bit packing of `WritingRequestBufferizer.writeDataToBuffer`
for boolean output: one byte per chunk of eight values, the last byte flushed
at the final element. -/
def packBits (values : List Int) : List Nat :=
  (List.range ((values.length + 7) / 8)).map fun k =>
    bitsToByte ((values.drop (8 * k)).take 8)

/-- `WritingRequestBufferizer.toBuffer`: six-byte header, the byte count at
offset 6 (`bufferSize - 7`), then two bytes per value (numeric output) or the
LSB-first bitfield (boolean output). -/
def WritingRequestBufferizer_toBuffer (parsedPacket : List Int)
    (isNumericOutput : Bool) : List Nat :=
  let n := parsedPacket.length - 4
  let byteCount := if isNumericOutput then 2 * n else (n + 7) / 8
  IORequestBufferizer_toBuffer parsedPacket 6
    ++ [byteCount % 256]
    ++ (if isNumericOutput then (parsedPacket.drop 4).flatMap writeUInt16BE
        else packBits (parsedPacket.drop 4))

/-- `RawModbusRequestBufferizer.toBuffer`: the frame bytes verbatim. -/
def RawModbusRequestBufferizer_toBuffer (parsedPacket : List Int) : List Nat :=
  parsedPacket.map writeUInt8

/-- `ModbusPacketBufferizer.toBuffer`: dispatch on the request's canonical
function token (and, for writes, on `dt = "no"` versus boolean output). -/
def ModbusPacketBufferizer_toBuffer (parsedPacket : List Int)
    (request : CanonicalRequest) : List Nat :=
  if request.fn = "r" then ReadingRequestBufferizer_toBuffer parsedPacket
  else if request.fn = "u" then
    WritingRequestBufferizer_toBuffer parsedPacket (request.dt = some "no")
  else if request.fn = "d" then DiagnosisRequestBufferizer_toBuffer parsedPacket
  else if request.fn = "m" then RawModbusRequestBufferizer_toBuffer parsedPacket
  else []

/-! ## JavaScript objects

Requests and responses are JSON-like records.  An object is an association
list of distinct string keys; lookup takes the first match and assignment
updates in place or appends, mirroring JavaScript property semantics. -/

/-- The JSON-like values that travel through the broker pipeline.  Every array
this pipeline carries (`rg`, `ls`, `dv`, `pk`, `fetched-data`) is an array of
numbers, so arrays hold integers directly. -/
inductive JSValue where
  | num (n : Int)
  | str (s : String)
  | bool (b : Bool)
  | arr (elements : List Int)
  | null
deriving Repr, DecidableEq

/-- An object: ordered key/value pairs with distinct keys. -/
abbrev JSObj := List (String × JSValue)

/-- Property read `object[key]`: `none` models JavaScript `undefined`. -/
def jget : JSObj → String → Option JSValue
  | [], _ => none
  | (k, v) :: rest, key => if k = key then some v else jget rest key

/-- Property write `object[key] = value`: replace in place, else append. -/
def jset (object : JSObj) (key : String) (value : JSValue) : JSObj :=
  match object with
  | [] => [(key, value)]
  | (k, w) :: rest =>
    if k = key then (k, value) :: rest else (k, w) :: jset rest key value

/-- JavaScript truthiness of a value (`0`, `""`, `false` and `null` are falsy;
every array, including the empty one, is truthy). -/
def truthy : JSValue → Bool
  | .num n => n ≠ 0
  | .str s => s ≠ ""
  | .bool b => b
  | .arr _ => true
  | .null => false

/-- Truthiness of a property read, where an absent property (`undefined`) is
falsy. -/
def truthyOpt : Option JSValue → Bool
  | some v => truthy v
  | none => false

/-- Two objects hold the same record when every key reads equally. -/
def JSObj.equiv (a b : JSObj) : Prop := ∀ key, jget a key = jget b key

/-! ## Keyword registry

The registry code is `keywordsMap.js`; its data is `modbusKeywords.json`.
Modelled from the spec: the JSON table itself is not among the provided
sources.  The spec (§2.1, §3, §6) fixes the eight request fields with their
terse and verbose names, the enumerated value tokens, and the four response
fields' verbose names (`status`, `message`, `fetched-data`,
`allowed-values`); the terse spellings of the response fields are not given
anywhere and are represented by the placeholder tokens `st`, `msg`, `fd`,
`av` — no theorem below depends on those spellings. -/

/-- The first eight entries of `modbusKeywords.json`: the request fields, as
(terse, verbose) pairs, in registry order. -/
def mbFields8 : List (String × String) :=
  [("id", "identifier"), ("fn", "function"), ("dt", "datatype"),
   ("rg", "range"), ("ls", "list"), ("dv", "values"),
   ("sf", "subfunction"), ("pk", "packet")]

/-- The remaining entries of `modbusKeywords.json`: enumerated value tokens
and response fields, as (terse, verbose) pairs. -/
def mbExtraKeywords : List (String × String) :=
  [("r", "read"), ("u", "write"), ("d", "diagnosis"), ("m", "modbus"),
   ("bi", "boolean-input"), ("bo", "boolean-output"),
   ("ni", "numeric-input"), ("no", "numeric-output"),
   ("st", "status"), ("msg", "message"),
   ("fd", "fetched-data"), ("av", "allowed-values")]

/-- All entries of `modbusKeywords.json`, fields first. -/
def modbusKeywords : List (String × String) := mbFields8 ++ mbExtraKeywords

/-- The canonical response-field tokens exported by `keywordsMap.js` as
`mb.STATUS`, `mb.MESSAGE`, `mb.FETCHED_DATA`: the `mb` object maps each JSON
key to the terse token `entry[1][0]` of the (spec-modelled) table. -/
def mbSTATUS : String := "st"

/-- The canonical message-field token `mb.MESSAGE`. -/
def mbMESSAGE : String := "msg"

/-- The canonical fetched-data token `mb.FETCHED_DATA`. -/
def mbFETCHED_DATA : String := "fd"

/-- The canonical allowed-values token `mb.ALLOWED_VALUES`. -/
def mbALLOWED_VALUES : String := "av"

/-- `getKey(mbValue, format)` from `keywordsMap.js`:
`formatId = (format === 'terse') ? 0 : 1` — the terse column for the exact
string `'terse'` and the verbose column for anything else, including the
`null` format the gateway passes for an unidentified request — applied to
the registry entry whose terse token is `mbValue`.  When no entry matches,
`Object.keys(mb).find(...)` is `undefined` and the JavaScript indexing
throws a `TypeError`; that case is modelled as `none`. -/
def getKey (mbValue : String) (format : Option String) : Option String :=
  (modbusKeywords.find? fun p => p.1 = mbValue).map fun p =>
    if format = some "terse" then p.1 else p.2

/-- The verbose-to-terse token map built by
`RequestFormatter.__createUnifiedMap(modbusKeywords)`. -/
def modbusKeywordsMap (token : String) : Option String :=
  (modbusKeywords.find? fun p => p.2 = token).map (·.1)

/-- The verbose-to-terse map over the diagnosis keyword table,
`RequestFormatter.__createUnifiedMap(modbusDiagnosis)`. -/
def modbusDiagnosisMap (token : String) : Option String :=
  (diagnosisKeywords.find? fun e => e.2.1 = token).map (·.1)

/-! ## Request formatter: `requestFormatter.js` -/

/-- The enum-token substitution inside `RequestFormatter.parse`: a string
value is replaced by `modbusKeywordsMap[value] || modbusDiagnosisMap[value] ||
value`; other values are kept verbatim. -/
def substituteToken (value : JSValue) : JSValue :=
  match value with
  | .str s =>
    match modbusKeywordsMap s with
    | some t => .str t
    | none =>
      match modbusDiagnosisMap s with
      | some t => .str t
      | none => .str s
  | v => v

/-- `RequestFormatter.parse(data, format)`: fold over the eight canonical
fields; read the caller's value under the terse or verbose key (`index` is 1
exactly when `format === 'verbose'`); `data[placeholder] || null` drops both
absent and falsy values; string values go through the token substitution; the
kept value is stored under the canonical (terse) key. -/
def RequestFormatter_parse (data : JSObj) (format : Option String) : JSObj :=
  mbFields8.foldl
    (fun accumulator p =>
      let placeholder := if format = some "verbose" then p.2 else p.1
      match jget data placeholder with
      | some value =>
        if truthy value then jset accumulator p.1 (substituteToken value)
        else accumulator
      | none => accumulator)
    []

/-- The key under which `RequestFormatter.parse` reads the canonical field
`p` from the caller's object: the verbose name exactly when the format is
`'verbose'`, the terse name otherwise. -/
def plcOf (format : Option String) (p : String × String) : String :=
  if format = some "verbose" then p.2 else p.1

/-- The entry that `RequestFormatter.parse` contributes for the canonical
field `p`, if any: present and truthy values survive (strings through the
token substitution) under the canonical key. -/
def parseEntry (data : JSObj) (format : Option String)
    (p : String × String) : Option (String × JSValue) :=
  match jget data (plcOf format p) with
  | some value =>
    if truthy value then some (p.1, substituteToken value) else none
  | none => none

/-- The entry that `RequestFormatter.correctFormat` contributes for the
new-object entry `kv`: the value of the original object under the projected
key when that value is truthy, the new value otherwise.  (Proof-side explicit
form; the `getD` default never fires on the objects the lemmas apply it to,
whose keys are all registered.) -/
def cfMap (oldObject : JSObj) (format : Option String)
    (kv : String × JSValue) : String × JSValue :=
  let originalKey := (getKey kv.1 format).getD kv.1
  (originalKey,
   match jget oldObject originalKey with
   | some w => if truthy w then w else kv.2
   | none => kv.2)

/-- `RequestFormatter.correctFormat(newObject, oldObject, format)`: for each
key of the new object, write under the projected key
`originalKey = getKey(key, format)` the value
`oldObject[originalKey] || newObject[key]`.  A `getKey` miss throws in
JavaScript (so the reduce never completes); that is modelled as `none` and
is unreachable in the pipeline, where every projected key is a registered
canonical token. -/
def RequestFormatter_correctFormat (newObject oldObject : JSObj)
    (format : Option String) : Option JSObj :=
  newObject.foldlM
    (fun accumulator kv =>
      (getKey kv.1 format).map fun originalKey =>
        let value :=
          match jget oldObject originalKey with
          | some w => if truthy w then w else kv.2
          | none => kv.2
        jset accumulator originalKey value)
    []

/-! ## Validator format detection: `requestValidator.js` -/

/-- The format-detection step of `Validator.validate`: the presence of `id`
selects the terse schema (checked first), the presence of `identifier` the
verbose one, and neither yields the `Unidentified format` failure with a
`null` format. -/
def detectedFormat (data : JSObj) : Option String :=
  if (jget data "id").isSome then some "terse"
  else if (jget data "identifier").isSome then some "verbose"
  else none

/-- The outcome of one compiled AJV validator at a given object: whether it
accepted, and otherwise the first error's rendered message
(`(error.instancePath.substring(1) + ' ' + error.message).trimStart()`) and,
for an `enum` failure, its `allowedValues`.  The compiled schemas
(`requestSchema.js` through `SchemaManager`) stay opaque behind this
interface; the theorems below never depend on their verdicts. -/
structure AjvOutcome where
  isValid : Bool
  errorMsg : String
  enumValues : Option JSValue
deriving Repr, DecidableEq

/-- `this.result` as stored by `Validator.validate`: the boolean verdict
fields, the possible format, the error message when invalid, and the enum
`allowedValues` when present. -/
structure ValidatorResult where
  isValid : Bool
  format : Option String
  msg : Option String
  allowedValues : Option JSValue
deriving Repr, DecidableEq

/-- `Validator.validate(data)`, with the two compiled AJV validators passed
as parameters.  The detection loop walks the `validateFormat` object in
insertion order — `id` selects terse, `identifier` verbose — and on the first
key the object owns, records the possible format, runs the matching
validator, attaches the error message (and `allowedValues` for an `enum`
failure) when it rejects, stores `this.result` and returns the verdict.
When the object owns neither key, the stored result is
`{ result: false, format: null, msg: "Unidentified format" }` and the
return value is `false`.  Returns (return value, `this.result`). -/
def Validator_validate (ajvTerse ajvVerbose : JSObj → AjvOutcome)
    (data : JSObj) : Bool × ValidatorResult :=
  match (if (jget data "id").isSome then some ("terse", ajvTerse data)
         else if (jget data "identifier").isSome then
           some ("verbose", ajvVerbose data)
         else none) with
  | some ft =>
    if ft.2.isValid then
      (true, ⟨true, some ft.1, none, none⟩)
    else
      (false, ⟨false, some ft.1, some ft.2.errorMsg, ft.2.enumValues⟩)
  | none => (false, ⟨false, none, some "Unidentified format", none⟩)

/-! ## Typed view of a canonical request object

The encoder and bufferiser read properties (`request[mb.ID_PROPERTY]`,
`request[mb.LIST_PROPERTY]`, …) straight off the canonical object; the typed
`CanonicalRequest` view extracts them once.  Defaults stand for reads that a
validated request never produces. -/

/-- A numeric property, defaulting to 0 for a non-number. -/
def asInt (v : Option JSValue) : Option Int :=
  match v with
  | some (.num n) => some n
  | _ => none

/-- A string property. -/
def asStr (v : Option JSValue) : Option String :=
  match v with
  | some (.str s) => some s
  | _ => none

/-- An integer-array property. -/
def asIntList (v : Option JSValue) : Option (List Int) :=
  match v with
  | some (.arr l) => some l
  | _ => none

/-- The typed view of a canonical request object: the eight canonical fields
read by the encoder and bufferiser.  The `rg` destructuring
`const [start, end] = request[RANGE]` takes the first two elements. -/
def canonicalOfObj (content : JSObj) : CanonicalRequest :=
  ⟨(asInt (jget content "id")).getD 0,
   (asStr (jget content "fn")).getD "",
   asStr (jget content "dt"),
   (asIntList (jget content "rg")).map fun l => (l.getD 0 0, l.getD 1 0),
   asIntList (jget content "ls"),
   asIntList (jget content "dv"),
   asStr (jget content "sf"),
   asIntList (jget content "pk")⟩

/-! ## Debufferiser: `modbusResponseDebufferizer.js`

The per-frame parsers return JavaScript arrays whose entries are numbers or —
for a numeric read whose data bytes ran out — the literal `null`; entries are
therefore `Option Int`, with `none` standing for `null`.  Node's
`readUInt8`/`readUInt16BE` throw outside the buffer; except inside the
reading parser's `try`/`catch`, such a read is unreachable for the echoes a
Modbus slave produces and is modelled with default 0. -/

/-- `Buffer.readUInt8(offset)`. -/
def readUInt8 (buffer : List Nat) (offset : Nat) : Int :=
  Int.ofNat (buffer.getD offset 0)

/-- `Buffer.readUInt16BE(offset)` (big-endian). -/
def readUInt16BE (buffer : List Nat) (offset : Nat) : Int :=
  Int.ofNat (buffer.getD offset 0 * 256 + buffer.getD (offset + 1) 0)

/-- `WritingResponseDebufferizer.toArray`: id, function, target offset and
target size. -/
def WritingResponseDebufferizer_toArray (response : List Nat) :
    List (Option Int) :=
  [some (readUInt8 response 0), some (readUInt8 response 1),
   some (readUInt16BE response 2), some (readUInt16BE response 4)]

/-- `ReadingResponseDebufferizer.parseFetchedNumericData`: one big-endian
word per register, `targetLength` registers, read from the sliced buffer.
`readUInt16BE` throws as soon as an offset runs past the buffer, and the
caller's `catch` turns the whole parse into a single `null` — nothing read
before the throw survives; that is the `none` case here. -/
def parseFetchedNumericData (response : List Nat) (targetLength : Nat) :
    Option (List Int) :=
  if response.length < 2 * targetLength then none
  else some ((List.range targetLength).map fun i => readUInt16BE response (2 * i))

/-- The inner bit loop of
`ReadingResponseDebufferizer.parseFetchedBooleanData`: push up to
`remaining` bits of `byte`, least significant first, and `break` as soon as
the accumulated length equals `targetLength` (the break leaves only the
inner loop — the outer byte loop continues). -/
def pushBitsAux (byte targetLength : Nat) :
    Nat → Nat → List Int → List Int
  | _, 0, fetchedData => fetchedData
  | bit, remaining + 1, fetchedData =>
    let fetchedData2 := fetchedData ++ [Int.ofNat ((byte >>> bit) &&& 1)]
    if fetchedData2.length = targetLength then fetchedData2
    else pushBitsAux byte targetLength (bit + 1) remaining fetchedData2

/-- `ReadingResponseDebufferizer.parseFetchedBooleanData`: for every byte of
the sliced buffer, its bits LSB-first through the inner loop.  (Note the
source quirk: the inner `break` fires only when the length is exactly
`targetLength`, and later bytes keep appending; this never reads outside the
buffer, so the boolean parser cannot throw.) -/
def parseFetchedBooleanData (response : List Nat) (targetLength : Nat) :
    List Int :=
  response.foldl
    (fun fetchedData byte => pushBitsAux byte targetLength 0 8 fetchedData) []

/-- `ReadingResponseDebufferizer.toArray(response, targetLength, dataType)`:
id and function bytes, then the parsed data of `response.slice(3)` — the
numeric parser for datatype `ni`/`no`, the boolean parser otherwise; a
caught numeric parse error pushes a single `null`. -/
def ReadingResponseDebufferizer_toArray (response : List Nat)
    (targetLength : Int) (dataType : Option String) : List (Option Int) :=
  let parsedResponse := [some (readUInt8 response 0), some (readUInt8 response 1)]
  if dataType = some "ni" ∨ dataType = some "no" then
    match parseFetchedNumericData (response.drop 3) targetLength.toNat with
    | some fetchedData => parsedResponse ++ fetchedData.map some
    | none => parsedResponse ++ [none]
  else
    parsedResponse
      ++ (parseFetchedBooleanData (response.drop 3) targetLength.toNat).map some

/-- `DiagnosisResponseDebufferizer.toArray(response, request)`: id, function
and subfunction, plus the fetched word when the subfunction's entry in
`dataFetcherSubfunctionMap` is truthy (an unknown subfunction reads
`undefined`, which is falsy). -/
def DiagnosisResponseDebufferizer_toArray (response : List Nat)
    (sf : Option String) : List (Option Int) :=
  let parsedResponse := [some (readUInt8 response 0), some (readUInt8 response 1),
    some (readUInt16BE response 2)]
  if (dataFetcherSubfunctionMap (sf.getD "")).getD false then
    parsedResponse ++ [some (readUInt16BE response 4)]
  else parsedResponse

/-- `RawModbusResponseDebufferizer.toArray`: the response bytes verbatim
(`response.map(byte => byte)`). -/
def RawModbusResponseDebufferizer_toArray (response : List Nat) :
    List (Option Int) :=
  response.map fun byte => some (Int.ofNat byte)

/-! ## Client request state: `clientRequest.js` -/

/-- The fields of a `ClientRequest` instance used by the response pipeline. -/
structure ClientRequest where
  originalContent : JSObj
  originalformat : Option String
  content : JSObj
  client : String
  device : String
  parsedRequests : List (List Int)
  bufferRequests : List (List Nat)
  bufferResponses : List (List Nat)
  responseObject : Option JSObj
deriving Repr, DecidableEq

/-- The `ClientRequest` constructor: parse the content to canonical form,
encode it into abstract frames, bufferise each frame, and start with no
collected responses and a `null` response object. -/
def ClientRequest_new (content : JSObj) (format : Option String)
    (client device : String) : ClientRequest :=
  let parsed := RequestFormatter_parse content format
  let canonical := canonicalOfObj parsed
  let parsedRequests := (ModbusPacketConstructor_parse canonical).getD []
  ⟨content, format, parsed, client, device, parsedRequests,
   parsedRequests.map fun packet =>
     ModbusPacketBufferizer_toBuffer packet canonical,
   [], none⟩

/-- `ClientRequest.pushResponse`: append the payload with its first (tag) byte
stripped to the collected responses. -/
def pushResponse (request : ClientRequest) (response : List Nat) :
    ClientRequest :=
  { request with
    bufferResponses := request.bufferResponses ++ [response.drop 1] }

/-- `ClientRequest.errorResponse`: clone the canonical content, set
`STATUS = false` and, when given, the message. -/
def errorResponse (request : ClientRequest) (message : Option String) :
    JSObj :=
  let responseObject := jset request.content mbSTATUS (.bool false)
  match message with
  | some m => jset responseObject mbMESSAGE (.str m)
  | none => responseObject

/-- The `ModbusResponseDebufferizer.nullBuffer` static:
`Buffer.from('4e756c6c', 'hex')`, the four bytes `"Null"`.
`ClientRequest.processClientResponse` compares each collected buffer against
it with `Buffer.equals`, i.e. whole-buffer equality. -/
def nullBuffer : List Nat := [0x4E, 0x75, 0x6C, 0x6C]

/-- `ModbusResponseDebufferizer.toArray(clientRequest)`: reduce over the
collected response buffers, decoding each with the debufferiser selected by
`content[FUNCTION]`; the reading debufferiser additionally receives
`parsedRequests[index][3]` and `content[DATATYPE]`, the diagnosis one the
content's subfunction.  An unregistered function leaves
`debufferizerFetcher` returning `undefined` and the call throws (unreachable
after schema validation); modelled as `[]`. -/
def ModbusResponseDebufferizer_toArray (request : ClientRequest) :
    List (List (Option Int)) :=
  let canonical := canonicalOfObj request.content
  (List.range request.bufferResponses.length).map fun index =>
    let response := request.bufferResponses.getD index []
    if canonical.fn = "u" then
      WritingResponseDebufferizer_toArray response
    else if canonical.fn = "r" then
      ReadingResponseDebufferizer_toArray response
        ((request.parsedRequests.getD index []).getD 3 0) canonical.dt
    else if canonical.fn = "d" then
      DiagnosisResponseDebufferizer_toArray response canonical.sf
    else if canonical.fn = "m" then
      RawModbusResponseDebufferizer_toArray response
    else []

/-! ## Response decoder: `modbusResponseDecoder.js` -/

/-- The address/value pairs accumulated by `ReadingResponseDecoder.decode`:
for each abstract frame, `targetLength` values starting at `targetOffset`,
each read at index `2 + i` of the corresponding response (an out-of-range
read is JavaScript `undefined`; modelled by the default `0`, unreachable when
the response length matches the frame). -/
def fetchedPairs (parsedRequests mbResponses : List (List Int)) :
    List (Int × Int) :=
  (parsedRequests.zip mbResponses).flatMap fun pr =>
    (List.range (pr.1.getD 3 0).toNat).map fun (i : Nat) =>
      (pr.1.getD 2 0 + (i : Int), pr.2.getD (2 + i) 0)

/-- The list-projection branch of `ReadingResponseDecoder.decode`:
`request.content[LIST].map(target => fetchedData[fetchedData.findIndex(p =>
p[0] === target)][1])`.  A missing target makes `findIndex` return `-1` and
JavaScript fault on the index; modelled as `none` (unreachable: the emitted
ranges cover the list). -/
def decodeLsOrder (ls : List Int) (fetchedData : List (Int × Int)) :
    Option (List Int) :=
  match ls with
  | [] => some []
  | target :: rest =>
    match fetchedData.find? fun p => p.1 = target with
    | some p => (decodeLsOrder rest fetchedData).map (p.2 :: ·)
    | none => none

/-- `ReadingResponseDecoder.decode`: clone the content, then store under
`FETCHED_DATA` either the values sorted by address (range request) or the
values projected back into the caller's original list order. -/
def ReadingResponseDecoder_decode (request : ClientRequest)
    (mbResponses : List (List Int)) : JSObj :=
  let fetchedData := fetchedPairs request.parsedRequests mbResponses
  let values :=
    if (jget request.content "rg").isSome then
      some ((fetchedData.insertionSort fun a b => a.1 ≤ b.1).map (·.2))
    else
      decodeLsOrder ((asIntList (jget request.content "ls")).getD [])
        fetchedData
  jset request.content mbFETCHED_DATA (.arr (values.getD []))

/-- `DiagnosisResponseDecoder.decode`: the fourth element of the first
response becomes the one-element fetched data when present. -/
def DiagnosisResponseDecoder_decode (request : ClientRequest)
    (mbResponses : List (List Int)) : JSObj :=
  if (mbResponses.getD 0 []).length = 4 then
    jset request.content mbFETCHED_DATA (.arr [(mbResponses.getD 0 []).getD 3 0])
  else request.content

/-- `RawModbusResponseDecoder.decode`: the first response verbatim. -/
def RawModbusResponseDecoder_decode (request : ClientRequest)
    (mbResponses : List (List Int)) : JSObj :=
  jset request.content mbFETCHED_DATA (.arr (mbResponses.getD 0 []))

/-- `WritingResponseDecoder.decode`: just the cloned content. -/
def WritingResponseDecoder_decode (request : ClientRequest)
    (_mbResponses : List (List Int)) : JSObj :=
  request.content

/-- The `validatorTargetRange` static of the decoder selected for the
request: positions 0–3 for writes and diagnosis, 0–1 for reads and raw. -/
def validatorTargetRange (fn : String) : Nat :=
  if fn = "u" ∨ fn = "d" then 4 else 2

/-- `ModbusResponseDecoder.validate`: every response matches its request
frame on the compared positions.  JavaScript compares with `===`, under which
two out-of-range reads (`undefined === undefined`) agree; comparing the
`Option` values models that. -/
def ModbusResponseDecoder_validate (request : ClientRequest)
    (mbRequests mbResponses : List (List Int)) : Bool :=
  let fn := (canonicalOfObj request.content).fn
  (List.range mbRequests.length).all fun i =>
    (List.range (validatorTargetRange fn)).all fun j =>
      ((mbRequests.get? i).bind fun l => l.get? j) ==
        ((mbResponses.get? i).bind fun l => l.get? j)

/-- `ModbusResponseDecoder.createClientResponse`: validate, then decode with
the function-specific decoder and set `STATUS = true`; on validation failure
return the cloned content with `STATUS = false`. -/
def createClientResponse (request : ClientRequest)
    (mbResponses : List (List Int)) : JSObj :=
  if ModbusResponseDecoder_validate request request.parsedRequests mbResponses
  then
    let fn := (canonicalOfObj request.content).fn
    let response :=
      if fn = "u" then WritingResponseDecoder_decode request mbResponses
      else if fn = "r" then ReadingResponseDecoder_decode request mbResponses
      else if fn = "d" then DiagnosisResponseDecoder_decode request mbResponses
      else RawModbusResponseDecoder_decode request mbResponses
    jset response mbSTATUS (.bool true)
  else
    jset request.content mbSTATUS (.bool false)

/-- `ClientRequest.processClientResponse(hasTimedOut)`, returning the value of
`this.responseObject` after the call.

In the timed-out branch the source computes `this.errorResponse('Timed Out')`
but never assigns the result (in contrast to line 89, which assigns the
`'Error Retrieving Data'` case), and returns immediately — so
`this.responseObject` keeps its value (`null` from the constructor).

Otherwise: if any collected buffer equals `nullBuffer` the parsed responses
are the one-element array `[null]` (a top-level `null`), else each element is
the debufferiser's array for one buffer; `parsedResponses.includes(null)`
tests the top level only — a `null` the reading debufferiser pushed *inside*
an array does not trigger it — and selects the `'Error Retrieving Data'`
error response, otherwise the decoded response.  `createClientResponse` here
receives arrays whose inner `null`s (possible only past position 1 of a
malformed numeric read, never at a validator-compared position) are
collapsed to `0`; JavaScript would carry them into the fetched data as
`null`, a divergence confined to those fetched values.  The result is
projected back into the original format (`correctFormat` is `none` exactly
when `getKey` would throw, which registered response keys never do). -/
def processClientResponse (request : ClientRequest) (hasTimedOut : Bool) :
    Option JSObj :=
  if hasTimedOut then
    let _discarded := errorResponse request (some "Timed Out")
    request.responseObject
  else
    let parsedResponses : List (Option (List (Option Int))) :=
      if request.bufferResponses.any (fun buffer => buffer = nullBuffer) then
        [none]
      else (ModbusResponseDebufferizer_toArray request).map some
    let responseObject :=
      if parsedResponses.contains none then
        errorResponse request (some "Error Retrieving Data")
      else
        createClientResponse request
          (parsedResponses.map fun r => (r.getD []).map fun v => v.getD 0)
    RequestFormatter_correctFormat responseObject
      request.originalContent request.originalformat

/-! ## Queue: `queue.js` -/

/-- The per-request packet loop of `RequestQueue.triggerQueue`: post each
packet in order and await its response; the first timeout (`arrives` false, or
exhausted) sets `hasTimedOut` and breaks out, skipping the remaining packets.
Returns the packets actually posted and the `hasTimedOut` flag. -/
def postLoop {α : Type} : List α → List Bool → List α × Bool
  | [], _ => ([], false)
  | packet :: rest, arrived :: laterArrivals =>
    if arrived then
      let r := postLoop rest laterArrivals
      (packet :: r.1, r.2)
    else ([packet], true)
  | packet :: _, [] => ([packet], true)

/-! ## Gateway routing: `gateway.js` -/

/-- The `operator === 'request'` branch of `Gateway.setupCallbacks`: the raw
payload is `JSON.parse`d, a failure yielding `{}` (the `parsedPayload`
parameter is `none` for unparsable text).  A payload the validator accepts is
wrapped in a `ClientRequest` and enqueued; otherwise the error message is
written onto the payload under `getKey(mb.MESSAGE, validator.result.format)`
— plus, when the result owns `allowedValues`, those under
`getKey(mb.ALLOWED_VALUES, ...)` — and the payload is published once on
`client/device/response`.  A `getKey` miss would throw (modelled by the
`getD ""` default, unreachable: both tokens are registered).  Returns the
queue after the branch and the list of messages it published. -/
def handleRequest (ajvTerse ajvVerbose : JSObj → AjvOutcome)
    (client device : String) (queue : List ClientRequest)
    (parsedPayload : Option JSObj) :
    List ClientRequest × List (String × JSObj) :=
  let payload := parsedPayload.getD []
  let v := Validator_validate ajvTerse ajvVerbose payload
  if v.1 then
    (queue ++ [ClientRequest_new payload v.2.format client device], [])
  else
    let withMsg :=
      jset payload ((getKey mbMESSAGE v.2.format).getD "")
        (.str ((v.2.msg).getD ""))
    let published :=
      match v.2.allowedValues with
      | some av => jset withMsg ((getKey mbALLOWED_VALUES v.2.format).getD "") av
      | none => withMsg
    (queue, [(client ++ "/" ++ device ++ "/response", published)])

/-- The `operator === 'mbnet'` branch of `Gateway.setupCallbacks`: the
payload is pushed onto `this.requestQueue.items[0]` — the head of the single
global queue — via `pushResponse`, regardless of the `device` segment of the
topic (the parameter is unused, as in the source, where `device` is only
logged).  With an empty queue the source faults on `items[0]`; the model
leaves the state unchanged. -/
def handleMbnet (_device : String) (items : List ClientRequest)
    (payload : List Nat) : List ClientRequest :=
  match items with
  | [] => []
  | inFlight :: rest => pushResponse inFlight payload :: rest

/-! ## Concrete inputs used by the theorems below -/

/-- The scenario-2 request of the spec:
`{"id":1,"fn":"r","dt":"bi","ls":[0,1,5,7,8,9,15]}`. -/
def listReadRequest : JSObj :=
  [("id", .num 1), ("fn", .str "r"), ("dt", .str "bi"),
   ("ls", .arr [0, 1, 5, 7, 8, 9, 15])]

/-- The client request built from `listReadRequest`. -/
def listReadClientRequest : ClientRequest :=
  ClientRequest_new listReadRequest (some "terse") "client" "device"

/-- A small valid two-frame read request, `{"id":1,"fn":"r","dt":"bi","ls":[0,5]}`. -/
def twoFrameRequest : JSObj :=
  [("id", .num 1), ("fn", .str "r"), ("dt", .str "bi"), ("ls", .arr [0, 5])]

/-- The client request built from `twoFrameRequest`. -/
def twoFrameClientRequest : ClientRequest :=
  ClientRequest_new twoFrameRequest (some "terse") "client" "device"

/-- A raw-Modbus request whose echoed response begins with the `"Null"`
bytes: unit id `78 = 0x4E` and packet `75 6C 6C FF`. -/
def rawNullishRequest : JSObj :=
  [("id", .num 78), ("fn", .str "m"), ("pk", .arr [0x75, 0x6C, 0x6C, 0xFF])]

/-- The client request built from `rawNullishRequest`, with the device's
echo of the frame collected as its one response buffer (first four bytes
`4E 75 6C 6C = "Null"`). -/
def rawNullishClientRequest : ClientRequest :=
  { ClientRequest_new rawNullishRequest (some "terse") "client" "device" with
    bufferResponses := [[0x4E, 0x75, 0x6C, 0x6C, 0xFF]] }

/-- A client request for device `"A"`. -/
def deviceARequest : ClientRequest :=
  ClientRequest_new twoFrameRequest (some "terse") "client" "A"

/-- The verbose example request of the spec:
`{"identifier":2,"function":"read","datatype":"boolean-output","range":[1,5]}`. -/
def verboseReadRequest : JSObj :=
  [("identifier", .num 2), ("function", .str "read"),
   ("datatype", .str "boolean-output"), ("range", .arr [1, 5])]

/-! ## Association-list object lemmas -/

theorem jget_eq_none_iff (o : JSObj) (c : String) :
    jget o c = none ↔ c ∉ o.map Prod.fst := by
  induction o with
  | nil => simp [jget]
  | cons kv rest ih =>
    obtain ⟨k, v⟩ := kv
    by_cases hk : k = c
    · subst hk
      simp [jget]
    · have hck : ¬c = k := fun h => hk h.symm
      simp [jget, hk, ih, hck]

theorem jget_eq_some_of_mem (o : JSObj) (c : String) (v : JSValue)
    (hmem : (c, v) ∈ o) (hnd : (o.map Prod.fst).Nodup) : jget o c = some v := by
  induction o with
  | nil => simp at hmem
  | cons kv rest ih =>
    obtain ⟨k, w⟩ := kv
    simp only [List.map_cons, List.nodup_cons] at hnd
    rcases List.mem_cons.mp hmem with h | h
    · obtain ⟨h1, h2⟩ := Prod.mk.injEq .. ▸ h
      simp [jget, h1.symm, h2]
    · have hk : k ≠ c := by
        intro he
        exact hnd.1 (he ▸ (List.mem_map.mpr ⟨(c, v), h, by simp [he]⟩))
      simp [jget, hk, ih h hnd.2]

theorem jset_eq_append (o : JSObj) (c : String) (v : JSValue)
    (hfresh : c ∉ o.map Prod.fst) : jset o c v = o ++ [(c, v)] := by
  induction o with
  | nil => simp [jset]
  | cons kv rest ih =>
    simp only [List.map_cons, List.mem_cons] at hfresh
    push_neg at hfresh
    have hne : ¬kv.1 = c := fun h => hfresh.1 h.symm
    simp [jset, hne, ih hfresh.2]

theorem foldl_jset_eq_append {β : Type} (h : β → Option (String × JSValue)) :
    ∀ (l : List β) (acc : JSObj),
      (∀ key ∈ (l.filterMap h).map Prod.fst, key ∉ acc.map Prod.fst) →
      ((l.filterMap h).map Prod.fst).Nodup →
      l.foldl
        (fun accumulator b =>
          match h b with
          | some kv => jset accumulator kv.1 kv.2
          | none => accumulator) acc
        = acc ++ l.filterMap h := by
  intro l
  induction l with
  | nil => intro acc _ _; simp
  | cons b rest ih =>
    intro acc hdisj hnd
    cases hb : h b with
    | none =>
      simpa [List.filterMap_cons, hb] using
        ih acc (by simpa [List.filterMap_cons, hb] using hdisj)
          (by simpa [List.filterMap_cons, hb] using hnd)
    | some kv =>
      simp only [List.filterMap_cons, hb, List.map_cons, List.nodup_cons] at hnd
      have hfresh : kv.1 ∉ acc.map Prod.fst :=
        hdisj kv.1 (by simp [List.filterMap_cons, hb])
      have hstep : jset acc kv.1 kv.2 = acc ++ [(kv.1, kv.2)] :=
        jset_eq_append acc kv.1 kv.2 hfresh
      have ihres := ih (acc ++ [(kv.1, kv.2)])
        (by
          intro key hkey
          have hne : key ≠ kv.1 := fun he => hnd.1 (he ▸ hkey)
          have hnacc : key ∉ acc.map Prod.fst :=
            hdisj key (by simp [List.filterMap_cons, hb, hkey])
          simp [hnacc, hne])
        hnd.2
      simp only [List.foldl_cons, hb, hstep]
      rw [ihres]
      simp [List.filterMap_cons, hb]

theorem mem_keys_filterMap {β : Type} (h : β → Option (String × JSValue))
    (key : β → String) (hk : ∀ b kv, h b = some kv → kv.1 = key b)
    (l : List β) (c : String) (hmem : c ∈ (l.filterMap h).map Prod.fst) :
    c ∈ l.map key := by
  induction l with
  | nil => simp at hmem
  | cons b rest ih =>
    cases hb : h b with
    | none =>
      simp only [List.filterMap_cons, hb] at hmem
      exact List.mem_cons_of_mem _ (ih hmem)
    | some kv =>
      simp only [List.filterMap_cons, hb, List.map_cons, List.mem_cons] at hmem
      rcases hmem with hmem | hmem
      · exact List.mem_cons.mpr (Or.inl (hmem.trans (hk b kv hb)))
      · exact List.mem_cons_of_mem _ (ih hmem)

theorem nodup_keys_filterMap {β : Type} (h : β → Option (String × JSValue))
    (key : β → String) (hk : ∀ b kv, h b = some kv → kv.1 = key b)
    (l : List β) (hnd : (l.map key).Nodup) :
    ((l.filterMap h).map Prod.fst).Nodup := by
  induction l with
  | nil => simp
  | cons b rest ih =>
    simp only [List.map_cons, List.nodup_cons] at hnd
    cases hb : h b with
    | none => simpa [List.filterMap_cons, hb] using ih hnd.2
    | some kv =>
      simp only [List.filterMap_cons, hb, List.map_cons, List.nodup_cons]
      refine ⟨fun hin => ?_, ih hnd.2⟩
      exact hnd.1 ((hk b kv hb) ▸ mem_keys_filterMap h key hk rest kv.1 hin)

/-! ## Claim C1 -/

/-- Claim C1 (code bug).  The claim states that a request whose in-flight ADU
times out has its remaining ADUs skipped and a response with `status=false`,
`message="Timed Out"` published.  The skipping half holds: on the two-frame
request, a timeout on the first ADU posts only that ADU and sets the timeout
flag.  But `processClientResponse(true)` discards the `'Timed Out'` error
object (`clientRequest.js` line 80 never assigns `this.responseObject`), so
the response object stays `null` and the gateway publishes JSON `null` instead
of the claimed record. -/
theorem C1_timeout_leaves_null_response :
    postLoop twoFrameClientRequest.bufferRequests [false]
      = ([[1, 2, 0, 0, 0, 1]], true)
    ∧ twoFrameClientRequest.bufferRequests.length = 2
    ∧ processClientResponse twoFrameClientRequest true = none := by
  decide

/-! ## Claim C2 -/

/-- Claim C2 (code bug).  The claim states that a CRC failure on a nonzero
read makes the field agent publish the tagged sentinel `01 4E 75 6C 6C`.
At the broker message `00 01 02 03` with UART reply `01 02 03` — whose CRC
over the full frame is nonzero — `gatewayHandler` instead publishes the
tagged corrupt frame with its last two bytes dropped (`01 01`): the validity
check `responseLen > 0 && !modbus_evaluateCRC(...)` only guards the retry
loop's early `break`, and the error branch tests only `responseLen < 1`.
The zero-length half of the claim does hold, as the last conjunct shows. -/
theorem C2_crc_failure_not_sentineled :
    modbus_evaluateCRC [1, 2, 3] ≠ 0
    ∧ gatewayHandler [0, 1, 2, 3] [1, 2, 3] = some [0x01, 1]
    ∧ some [0x01, 1] ≠ some (0x01 :: nullBody)
    ∧ gatewayHandler [0, 1, 2, 3] [] = some (0x01 :: nullBody) := by
  decide

/-! ## Claim C3 -/

/-- Claim C3 counterexample.  The claim states that a message on
`+/device/mbnet` is appended to the in-flight request *for the device named
in the topic*.  With a request for device `"A"` in flight, a message on topic
`client/B/mbnet` is appended (tag-stripped) to that request: the request that
received the buffer is for device `"A"`, not `"B"`, and no request for `"B"`
receives anything. -/
theorem C3_routing_ignores_topic_device :
    deviceARequest.device = "A"
    ∧ handleMbnet "B" [deviceARequest] [1, 9]
        = [{ deviceARequest with bufferResponses := [[9]] }]
    ∧ (handleMbnet "B" [deviceARequest] [1, 9]).all (fun r => r.device ≠ "B")
        = true := by
  refine ⟨rfl, ?_, by decide⟩
  decide

/-- Claim C3 as amended: an inbound mbnet message is appended — with its
first tag byte stripped, at the end of the collected-response list — to the
head of the single global queue (the currently in-flight Client Request),
regardless of the device named in the topic; all other queued requests are
untouched. -/
theorem C3_amended_append_to_head (device1 device2 : String)
    (items : List ClientRequest) (payload : List Nat)
    (inFlight : ClientRequest) (rest : List ClientRequest)
    (hitems : items = inFlight :: rest) :
    handleMbnet device1 items payload = handleMbnet device2 items payload
    ∧ handleMbnet device1 items payload
        = { inFlight with
            bufferResponses := inFlight.bufferResponses ++ [payload.drop 1] }
          :: rest := by
  subst hitems
  exact ⟨rfl, rfl⟩

/-- Witness for `C3_amended_append_to_head` at a concrete queue state. -/
theorem C3_amended_append_to_head_witness :
    handleMbnet "A" [deviceARequest] [1, 9]
      = handleMbnet "B" [deviceARequest] [1, 9]
    ∧ handleMbnet "A" [deviceARequest] [1, 9]
        = { deviceARequest with
            bufferResponses := deviceARequest.bufferResponses ++ [[1, 9].drop 1] }
          :: [] := by
  exact C3_amended_append_to_head "A" "B" [deviceARequest] [1, 9]
    deviceARequest [] rfl

/-! ## Claim C5 -/

/-- Claim C5 counterexample.  For
`{"id":1,"fn":"r","dt":"bi","ls":[0,1,5,7,8,9,15]}` the claim says the
pipeline emits exactly two ADUs, `01 02 00 00 00 02` and `01 02 00 05 00 0B`.
The pipeline in fact emits four (the maximal contiguous runs are
`{0,1}`, `{5}`, `{7,8,9}`, `{15}`; the claimed second ADU would cover
5–15 including addresses never requested). -/
theorem C5_two_adus_refuted :
    listReadClientRequest.bufferRequests.length = 4
    ∧ listReadClientRequest.bufferRequests
        ≠ [[0x01, 0x02, 0x00, 0x00, 0x00, 0x02],
           [0x01, 0x02, 0x00, 0x05, 0x00, 0x0B]] := by
  decide

/-- Claim C5 as amended: the request
`{"id":1,"fn":"r","dt":"bi","ls":[0,1,5,7,8,9,15]}` compiles to exactly four
ADUs — `01 02 00 00 00 02`, `01 02 00 05 00 01`, `01 02 00 07 00 03`,
`01 02 00 0F 00 01` — and, whatever seven values the field returns for the
seven requested coils, the decoder reassembles them in the caller's original
list order. -/
theorem C5_amended_four_adus_and_order (b0 b1 b5 b7 b8 b9 b15 : Int) :
    listReadClientRequest.bufferRequests
      = [[0x01, 0x02, 0x00, 0x00, 0x00, 0x02],
         [0x01, 0x02, 0x00, 0x05, 0x00, 0x01],
         [0x01, 0x02, 0x00, 0x07, 0x00, 0x03],
         [0x01, 0x02, 0x00, 0x0F, 0x00, 0x01]]
    ∧ decodeLsOrder [0, 1, 5, 7, 8, 9, 15]
        (fetchedPairs listReadClientRequest.parsedRequests
          [[1, 2, b0, b1], [1, 2, b5], [1, 2, b7, b8, b9], [1, 2, b15]])
        = some [b0, b1, b5, b7, b8, b9, b15] := by
  exact ⟨by decide, rfl⟩

/-- Witness for `C5_amended_four_adus_and_order` at concrete coil values. -/
theorem C5_amended_four_adus_and_order_witness :
    listReadClientRequest.bufferRequests
      = [[0x01, 0x02, 0x00, 0x00, 0x00, 0x02],
         [0x01, 0x02, 0x00, 0x05, 0x00, 0x01],
         [0x01, 0x02, 0x00, 0x07, 0x00, 0x03],
         [0x01, 0x02, 0x00, 0x0F, 0x00, 0x01]]
    ∧ decodeLsOrder [0, 1, 5, 7, 8, 9, 15]
        (fetchedPairs listReadClientRequest.parsedRequests
          [[1, 2, 1, 0], [1, 2, 1], [1, 2, 0, 1, 0], [1, 2, 1]])
        = some [1, 0, 1, 0, 1, 0, 1] := by
  exact C5_amended_four_adus_and_order 1 0 1 0 1 0 1

/-! ## Claim C8 -/

/-- Claim C8 counterexample.  The claim computes the inter-symbol timeout
with a ceiling; the firmware truncates.  At 9600 baud, 8N1, the exact value
is `1500·9/9600 = 1.40625` ms: the claimed formula gives 2 ms, the code
gives 1 ms. -/
theorem C8_ceiling_refuted :
    modbus_calculateIntersymbolTimeout ⟨9600, true, 8, 1⟩ = 1
    ∧ specIntersymbolTimeout ⟨9600, true, 8, 1⟩ = 2
    ∧ modbus_calculateIntersymbolTimeout ⟨9600, true, 8, 1⟩
        ≠ specIntersymbolTimeout ⟨9600, true, 8, 1⟩ := by
  decide

/-- Claim C8 as amended: the timeout equals
`max(1 ms, floor(1500·(8 + parity_bits + 1)/baud_rate))`, with the data bits
fixed at 8 and the stop bits fixed at 1 (the firmware ignores those fields)
and only the parity bit taken from the configuration. -/
theorem C8_amended_floor_formula (config : uart_config_t)
    (hbaud : 0 < config.baud_rate) :
    modbus_calculateIntersymbolTimeout config
      = max 1 ((1500 * (8 + (if config.parity_disable then 0 else 1) + 1))
          / config.baud_rate) := by
  unfold modbus_calculateIntersymbolTimeout
  rcases Nat.eq_zero_or_pos
    ((1500 * (8 + (if config.parity_disable then 0 else 1) + 1))
      / config.baud_rate) with h0 | hpos
  · simp [h0]
  · simp only [Nat.pos_iff_ne_zero.mp hpos, if_false]
    omega

/-- Witness for `C8_amended_floor_formula` at the firmware's own UART
configuration (115200 baud, 8N1). -/
theorem C8_amended_floor_formula_witness :
    0 < (115200 : Nat)
    ∧ modbus_calculateIntersymbolTimeout ⟨115200, true, 8, 1⟩
        = max 1 ((1500 * (8 + (if (true : Bool) then 0 else 1) + 1)) / 115200) :=
  ⟨by decide, C8_amended_floor_formula ⟨115200, true, 8, 1⟩ (by decide)⟩

/-! ## Claim C9 (counterexample) -/

/-- Claim C9 counterexample.  The claim says any collected response buffer
whose *first four bytes* equal the `"Null"` sentinel marks the response
failed with `status=false`, `message="Error Retrieving Data"`.  The source
compares whole buffers (`Buffer.equals`): for the raw request to unit
`78 = 0x4E` with packet `75 6C 6C FF`, the echoed five-byte response
`4E 75 6C 6C FF` begins with the sentinel yet the pipeline ends with
`status=true` (under the terse status key) and no message. -/
theorem C9_prefix_sentinel_refuted :
    ([0x4E, 0x75, 0x6C, 0x6C, 0xFF].take 4 = nullBuffer)
    ∧ rawNullishClientRequest.bufferResponses = [[0x4E, 0x75, 0x6C, 0x6C, 0xFF]]
    ∧ getKey mbSTATUS (some "terse") = some mbSTATUS
    ∧ getKey mbMESSAGE (some "terse") = some mbMESSAGE
    ∧ ((processClientResponse rawNullishClientRequest false).bind
        fun r => jget r mbSTATUS)
        = some (.bool true)
    ∧ ((processClientResponse rawNullishClientRequest false).bind
        fun r => jget r mbMESSAGE)
        = none := by
  decide

/-! ## Claim C7: the CRC self-check -/

theorem xor_disjoint_eq_add (k : Nat) :
    ∀ q r : Nat, r < 2 ^ k → (2 ^ k * q) ^^^ r = 2 ^ k * q + r := by
  induction k with
  | zero =>
    intro q r hr
    interval_cases r
    simp
  | succ k ih =>
    intro q r hr
    have hmul : 2 ^ (k + 1) * q = 2 * (2 ^ k * q) := by ring
    have hpow : (2 : Nat) ^ (k + 1) = 2 * 2 ^ k := by ring
    have hdiv2 : 2 ^ (k + 1) * q / 2 = 2 ^ k * q := by omega
    have heven : 2 ^ (k + 1) * q % 2 = 0 := by omega
    have hdiv : ((2 ^ (k + 1) * q) ^^^ r) / 2 = 2 ^ k * q + r / 2 := by
      rw [Nat.xor_div_two, hdiv2, ih q (r / 2) (by omega)]
    have hparity : ((2 ^ (k + 1) * q) ^^^ r) % 2 = r % 2 := by
      rcases Nat.mod_two_eq_zero_or_one r with hr2 | hr2
      · have hne : ¬((2 ^ (k + 1) * q) ^^^ r) % 2 = 1 := by
          rw [Nat.xor_mod_two_eq_one]
          simp [heven, hr2]
        omega
      · have heq : ((2 ^ (k + 1) * q) ^^^ r) % 2 = 1 := by
          rw [Nat.xor_mod_two_eq_one]
          simp [heven, hr2]
        omega
    omega

theorem xor_low_byte (c : Nat) : c ^^^ c % 256 = 256 * (c / 256) := by
  have hsplit : (2 ^ 8 * (c / 256)) ^^^ c % 256 = 2 ^ 8 * (c / 256) + c % 256 :=
    xor_disjoint_eq_add 8 (c / 256) (c % 256) (Nat.mod_lt c (by norm_num))
  have hc : 2 ^ 8 * (c / 256) + c % 256 = c := by
    have := Nat.div_add_mod c 256
    norm_num
    omega
  have h1 : c ^^^ c % 256 = ((2 ^ 8 * (c / 256)) ^^^ c % 256) ^^^ c % 256 := by
    rw [hsplit, hc]
  rw [h1, Nat.xor_assoc, Nat.xor_self, Nat.xor_zero]
  norm_num

theorem xor_xor_cancel_right (x y p : Nat) :
    (x ^^^ p) ^^^ (y ^^^ p) = x ^^^ y := by
  rw [Nat.xor_assoc x p (y ^^^ p), Nat.xor_comm y p, ← Nat.xor_assoc p p y,
    Nat.xor_self, Nat.zero_xor]

theorem crcRound_linear (a b : Nat) :
    crcRound (a ^^^ b) = crcRound a ^^^ crcRound b := by
  unfold crcRound
  simp only [Nat.and_one_is_mod, Nat.shiftRight_one]
  have hx : (a ^^^ b) / 2 = a / 2 ^^^ b / 2 := Nat.xor_div_two
  have hpar : (a ^^^ b) % 2 = (a + b) % 2 := Nat.xor_mod_two_eq
  rcases Nat.mod_two_eq_zero_or_one a with ha | ha <;>
    rcases Nat.mod_two_eq_zero_or_one b with hb | hb
  · rw [if_neg (by omega), if_neg (by omega), if_neg (by omega), hx]
  · rw [if_pos (by omega), if_neg (by omega), if_pos (by omega), hx,
      Nat.xor_assoc]
  · rw [if_pos (by omega), if_pos (by omega), if_neg (by omega), hx,
      Nat.xor_assoc (a / 2) (b / 2) 0xA001, Nat.xor_comm (b / 2) 0xA001,
      ← Nat.xor_assoc (a / 2) 0xA001 (b / 2)]
  · rw [if_neg (by omega), if_pos (by omega), if_pos (by omega), hx,
      xor_xor_cancel_right]

theorem crcRound_zero : crcRound 0 = 0 := by decide

theorem crcRound_iterate_zero (n : Nat) : crcRound^[n] 0 = 0 := by
  induction n with
  | zero => rfl
  | succ n ih => rw [Function.iterate_succ_apply, crcRound_zero, ih]

theorem crcRound_iterate_shifted :
    ∀ (k b : Nat), crcRound^[k] (2 ^ k * b) = b := by
  intro k
  induction k with
  | zero => intro b; simp
  | succ k ih =>
    intro b
    have hmul : 2 ^ (k + 1) * b = 2 * (2 ^ k * b) := by ring
    have heven : (2 ^ (k + 1) * b) % 2 = 0 := by omega
    have hstep : crcRound (2 ^ (k + 1) * b) = 2 ^ k * b := by
      unfold crcRound
      simp only [Nat.and_one_is_mod, Nat.shiftRight_one]
      rw [if_neg (by omega)]
      omega
    rw [Function.iterate_succ_apply, hstep, ih b]

theorem pow_two_16 : (2 : Nat) ^ 16 = 65536 := by norm_num

theorem crcRound_lt (c : Nat) (hc : c < 65536) : crcRound c < 65536 := by
  unfold crcRound
  have hhalf : c >>> 1 < 65536 := by rw [Nat.shiftRight_one]; omega
  split
  · have hx : (c >>> 1) ^^^ 0xA001 < 2 ^ 16 :=
      Nat.xor_lt_two_pow (pow_two_16 ▸ hhalf) (by rw [pow_two_16]; norm_num)
    exact pow_two_16 ▸ hx
  · exact hhalf

theorem crcRound_iterate_lt (n c : Nat) (hc : c < 65536) :
    crcRound^[n] c < 65536 := by
  induction n generalizing c with
  | zero => simpa using hc
  | succ n ih =>
    rw [Function.iterate_succ_apply]
    exact ih (crcRound c) (crcRound_lt c hc)

theorem crcByteStep_lt (c b : Nat) (hc : c < 65536) (hb : b < 256) :
    crcByteStep c b < 65536 := by
  unfold crcByteStep
  have hx : c ^^^ b < 2 ^ 16 :=
    Nat.xor_lt_two_pow (pow_two_16 ▸ hc) (by rw [pow_two_16]; omega)
  exact crcRound_iterate_lt 8 (c ^^^ b) (pow_two_16 ▸ hx)

theorem modbus_evaluateCRC_lt (data : List Nat)
    (hdata : ∀ b ∈ data, b < 256) : modbus_evaluateCRC data < 65536 := by
  unfold modbus_evaluateCRC
  have hgen : ∀ (l : List Nat) (init : Nat), (∀ b ∈ l, b < 256) → init < 65536 →
      l.foldl crcByteStep init < 65536 := by
    intro l
    induction l with
    | nil => intro init _ hi; simpa using hi
    | cons b rest ih =>
      intro init hl hi
      rw [List.foldl_cons]
      exact ih (crcByteStep init b)
        (fun x hx => hl x (List.mem_cons_of_mem b hx))
        (crcByteStep_lt init b hi (hl b (List.mem_cons_self b rest)))
  exact hgen data 0xFFFF hdata (by norm_num)

/-- Feeding a 16-bit CRC state its own low byte leaves the high byte. -/
theorem crcByteStep_low (c : Nat) : crcByteStep c (lowByte c) = c / 256 := by
  unfold crcByteStep lowByte
  have h255 : (255 : Nat) = 2 ^ 8 - 1 := by norm_num
  have hand : c &&& 0x00FF = c % 256 := by
    have := Nat.and_pow_two_sub_one_eq_mod c 8
    norm_num at this
    exact this
  rw [hand, xor_low_byte]
  have := crcRound_iterate_shifted 8 (c / 256)
  norm_num at this
  exact this

/-- Feeding the remaining high byte drives the state to zero. -/
theorem crcByteStep_high (c : Nat) (hc : c < 65536) :
    crcByteStep (c / 256) (highByte c) = 0 := by
  unfold crcByteStep highByte
  have hsh : c >>> 8 = c / 256 := by
    rw [Nat.shiftRight_eq_div_pow]
  have hlt : c / 256 < 256 := by omega
  have hand : (c >>> 8) &&& 0x00FF = c / 256 := by
    rw [hsh]
    have := Nat.and_pow_two_sub_one_eq_mod (c / 256) 8
    norm_num at this
    omega
  rw [hand, Nat.xor_self]
  exact crcRound_iterate_zero 8

/-- Claim C7 (confirmed).  For every byte frame, appending its own CRC —
low byte first, as `gatewayHandler` does with `lowByte`/`highByte` — makes
the CRC of the extended frame zero. -/
theorem C7_crc_self_check (frame : List Nat) (hframe : ∀ b ∈ frame, b < 256) :
    modbus_evaluateCRC
      (frame ++ [lowByte (modbus_evaluateCRC frame),
                 highByte (modbus_evaluateCRC frame)]) = 0 := by
  have hc : modbus_evaluateCRC frame < 65536 := modbus_evaluateCRC_lt frame hframe
  unfold modbus_evaluateCRC
  rw [List.foldl_append]
  have hfold : frame.foldl crcByteStep 0xFFFF = modbus_evaluateCRC frame := rfl
  rw [hfold]
  simp only [List.foldl_cons, List.foldl_nil]
  rw [crcByteStep_low, crcByteStep_high (modbus_evaluateCRC frame) hc]

/-- Witness for `C7_crc_self_check` on a concrete frame. -/
theorem C7_crc_self_check_witness :
    (∀ b ∈ [1, 2, 3], b < 256)
    ∧ modbus_evaluateCRC
        ([1, 2, 3] ++ [lowByte (modbus_evaluateCRC [1, 2, 3]),
                       highByte (modbus_evaluateCRC [1, 2, 3])]) = 0 :=
  ⟨by decide, C7_crc_self_check [1, 2, 3] (by decide)⟩

/-! ## Claim C4: list coalescing into maximal contiguous runs -/

theorem covers_nil (x : Int) : covers [] x = false := rfl

theorem covers_cons (r : Int × Int) (rs : List (Int × Int)) (x : Int) :
    covers (r :: rs) x
      = ((decide (r.1 ≤ x) && decide (x < r.1 + r.2)) || covers rs x) := by
  simp [covers]

theorem rangesAux_covers :
    ∀ (t : List Int) (a s x : Int), s ≤ a →
      (covers (rangesAux s (a :: t)) x = true ↔ (s ≤ x ∧ x ≤ a) ∨ x ∈ t) := by
  intro t
  induction t with
  | nil =>
    intro a s x hsa
    simp only [rangesAux, covers, List.any_cons, List.any_nil,
      Bool.or_false, Bool.and_eq_true, decide_eq_true_eq, List.not_mem_nil,
      or_false]
    omega
  | cons b rest ih =>
    intro a s x hsa
    by_cases hab : a = b - 1
    · have hun : rangesAux s (a :: b :: rest) = rangesAux s (b :: rest) := by
        simp [rangesAux, hab]
      rw [hun, ih b s x (by omega)]
      simp only [List.mem_cons]
      constructor
      · rintro (⟨h1, h2⟩ | h)
        · by_cases hxa : x ≤ a
          · exact Or.inl ⟨h1, hxa⟩
          · exact Or.inr (Or.inl (by omega))
        · exact Or.inr (Or.inr h)
      · rintro (⟨h1, h2⟩ | hx | h)
        · exact Or.inl ⟨h1, by omega⟩
        · exact Or.inl ⟨by omega, by omega⟩
        · exact Or.inr h
    · have hun : rangesAux s (a :: b :: rest)
          = (s, a - s + 1) :: rangesAux b (b :: rest) := by
        simp [rangesAux, hab]
      rw [hun, covers_cons]
      simp only [Bool.or_eq_true, Bool.and_eq_true, decide_eq_true_eq,
        ih b b x (le_refl b), List.mem_cons]
      constructor
      · rintro (⟨h1, h2⟩ | ⟨h1, h2⟩ | h)
        · exact Or.inl ⟨h1, by omega⟩
        · exact Or.inr (Or.inl (by omega))
        · exact Or.inr (Or.inr h)
      · rintro (⟨h1, h2⟩ | hx | h)
        · exact Or.inl ⟨h1, by omega⟩
        · exact Or.inr (Or.inl ⟨by omega, by omega⟩)
        · exact Or.inr (Or.inr h)

theorem rangesAux_length :
    ∀ (t : List Int) (a s : Int),
      (rangesAux s (a :: t)).length = (lefts a t).length := by
  intro t
  induction t with
  | nil => intro a s; rfl
  | cons b rest ih =>
    intro a s
    by_cases hab : a = b - 1
    · have h1 : rangesAux s (a :: b :: rest) = rangesAux s (b :: rest) := by
        simp [rangesAux, hab]
      rw [h1, ih b s]
      simp [lefts, leftsAux, hab]
    · have h1 : rangesAux s (a :: b :: rest)
          = (s, a - s + 1) :: rangesAux b (b :: rest) := by
        simp [rangesAux, hab]
      rw [h1]
      simp only [List.length_cons, ih b b]
      simp [lefts, leftsAux, hab]

theorem leftsAux_subset :
    ∀ (t : List Int) (a x : Int), x ∈ leftsAux a t → x ∈ t := by
  intro t
  induction t with
  | nil => intro a x h; simp [leftsAux] at h
  | cons b rest ih =>
    intro a x h
    have h2 : x ∈ (if a = b - 1 then ([] : List Int) else [b])
        ++ leftsAux b rest := h
    rcases List.mem_append.mp h2 with h3 | h3
    · by_cases hab : a = b - 1
      · rw [if_pos hab] at h3
        simp at h3
      · rw [if_neg hab] at h3
        have hxb : x = b := by simpa using h3
        simp [hxb]
    · exact List.mem_cons_of_mem b (ih b x h3)

theorem lefts_mem (t : List Int) (a x : Int) (h : x ∈ lefts a t) :
    x ∈ a :: t := by
  rcases List.mem_cons.mp h with h | h
  · exact List.mem_cons.mpr (Or.inl h)
  · exact List.mem_cons_of_mem a (leftsAux_subset t a x h)

theorem lefts_pred_not_mem :
    ∀ (t : List Int) (a : Int), List.Pairwise (· < ·) (a :: t) →
      ∀ x ∈ lefts a t, (x - 1) ∉ (a :: t) := by
  intro t
  induction t with
  | nil =>
    intro a _ x hx hmem
    have hxa : x = a := by simpa [lefts, leftsAux] using hx
    subst hxa
    have hxx : x - 1 = x := by simpa using hmem
    omega
  | cons b rest ih =>
    intro a hp x hx hmem
    have hp2 : List.Pairwise (· < ·) (b :: rest) := hp.of_cons
    have hab : a < b := List.rel_of_pairwise_cons hp (List.mem_cons_self b rest)
    have ha_all : ∀ y ∈ b :: rest, a < y := fun y hy =>
      List.rel_of_pairwise_cons hp hy
    have hb_all : ∀ y ∈ rest, b < y := fun y hy =>
      List.rel_of_pairwise_cons hp2 hy
    have hx2 : x ∈ a :: ((if a = b - 1 then ([] : List Int) else [b])
        ++ leftsAux b rest) := hx
    rcases List.mem_cons.mp hx2 with hxa | hxm
    · subst hxa
      rcases List.mem_cons.mp hmem with h | h
      · omega
      · have := ha_all _ h
        omega
    · rcases List.mem_append.mp hxm with hxif | hxaux
      · by_cases habm : a = b - 1
        · rw [if_pos habm] at hxif
          simp at hxif
        · rw [if_neg habm] at hxif
          have hxb : x = b := by simpa using hxif
          subst hxb
          rcases List.mem_cons.mp hmem with h | h
          · omega
          · rcases List.mem_cons.mp h with h | h
            · omega
            · have := hb_all _ h
              omega
      · have hxrest : x ∈ rest := leftsAux_subset rest b x hxaux
        have hbx : b < x := hb_all _ hxrest
        have hnot : (x - 1) ∉ (b :: rest) :=
          ih b hp2 x (List.mem_cons_of_mem b hxaux)
        rcases List.mem_cons.mp hmem with h | h
        · omega
        · exact hnot h

theorem lefts_pairwise :
    ∀ (t : List Int) (a : Int), List.Pairwise (· < ·) (a :: t) →
      List.Pairwise (· < ·) (lefts a t) := by
  intro t
  induction t with
  | nil => intro a _; simp [lefts, leftsAux]
  | cons b rest ih =>
    intro a hp
    have hp2 : List.Pairwise (· < ·) (b :: rest) := hp.of_cons
    have hab : a < b := List.rel_of_pairwise_cons hp (List.mem_cons_self b rest)
    have hb_all : ∀ y ∈ rest, b < y := fun y hy =>
      List.rel_of_pairwise_cons hp2 hy
    have hrec : List.Pairwise (· < ·) (b :: leftsAux b rest) := ih b hp2
    have hauxlt : ∀ y ∈ leftsAux b rest, b < y := fun y hy =>
      List.rel_of_pairwise_cons hrec hy
    show List.Pairwise (· < ·)
      (a :: ((if a = b - 1 then ([] : List Int) else [b]) ++ leftsAux b rest))
    by_cases habm : a = b - 1
    · rw [if_pos habm, List.nil_append]
      refine List.pairwise_cons.mpr ⟨fun y hy => ?_, hrec.of_cons⟩
      have := hauxlt y hy
      omega
    · rw [if_neg habm, List.cons_append, List.nil_append]
      refine List.pairwise_cons.mpr ⟨fun y hy => ?_, hrec⟩
      rcases List.mem_cons.mp hy with h | h
      · omega
      · have := hauxlt y h
        omega

theorem rangesAux_starts_lb :
    ∀ (t : List Int) (a s : Int), List.Pairwise (· < ·) (a :: t) → s ≤ a →
      ∀ r ∈ rangesAux s (a :: t), s ≤ r.1 := by
  intro t
  induction t with
  | nil =>
    intro a s _ _ r hr
    simp [rangesAux] at hr
    simp [hr]
  | cons b rest ih =>
    intro a s hp hsa r hr
    have hp2 : List.Pairwise (· < ·) (b :: rest) := hp.of_cons
    have hab : a < b := List.rel_of_pairwise_cons hp (List.mem_cons_self b rest)
    by_cases habm : a = b - 1
    · rw [show rangesAux s (a :: b :: rest) = rangesAux s (b :: rest) from by
        simp [rangesAux, habm]] at hr
      exact ih b s hp2 (by omega) r hr
    · rw [show rangesAux s (a :: b :: rest)
          = (s, a - s + 1) :: rangesAux b (b :: rest) from by
        simp [rangesAux, habm]] at hr
      rcases List.mem_cons.mp hr with h | h
      · simp [h]
      · have := ih b b hp2 (le_refl b) r h
        omega

theorem rangesAux_starts_sorted :
    ∀ (t : List Int) (a s : Int), List.Pairwise (· < ·) (a :: t) → s ≤ a →
      List.Pairwise (· < ·) ((rangesAux s (a :: t)).map Prod.fst) := by
  intro t
  induction t with
  | nil =>
    intro a s _ _
    simp [rangesAux]
  | cons b rest ih =>
    intro a s hp hsa
    have hp2 : List.Pairwise (· < ·) (b :: rest) := hp.of_cons
    have hab : a < b := List.rel_of_pairwise_cons hp (List.mem_cons_self b rest)
    by_cases habm : a = b - 1
    · rw [show rangesAux s (a :: b :: rest) = rangesAux s (b :: rest) from by
        simp [rangesAux, habm]]
      exact ih b s hp2 (by omega)
    · rw [show rangesAux s (a :: b :: rest)
          = (s, a - s + 1) :: rangesAux b (b :: rest) from by
        simp [rangesAux, habm]]
      rw [List.map_cons]
      refine List.pairwise_cons.mpr ⟨fun y hy => ?_, ih b b hp2 (le_refl b)⟩
      obtain ⟨r, hr, hry⟩ := List.mem_map.mp hy
      have := rangesAux_starts_lb rest b b hp2 (le_refl b) r hr
      omega

theorem sortJS_perm (l : List Int) : List.Perm (sortJS l) l :=
  List.perm_insertionSort _ l

theorem sortJS_sorted_lt (l : List Int) (hnd : l.Nodup) :
    List.Pairwise (· < ·) (sortJS l) := by
  have hle : List.Sorted (fun a b => a ≤ b) (sortJS l) :=
    List.sorted_insertionSort _ l
  have hnd2 : (sortJS l).Nodup := ((sortJS_perm l).nodup_iff).mpr hnd
  exact List.Sorted.lt_of_le hle hnd2

theorem getRangesFromList_spec (l : List Int) (hne : l ≠ [])
    (hnd : l.Nodup) :
    (∀ x, covers (getRangesFromList l) x = true ↔ x ∈ l)
    ∧ List.Pairwise (· < ·) ((getRangesFromList l).map Prod.fst)
    ∧ ∀ cover : List (Int × Int),
        (∀ x, covers cover x = true ↔ x ∈ l) →
        (getRangesFromList l).length ≤ cover.length := by
  obtain ⟨a, t, hsorted⟩ : ∃ a t, sortJS l = a :: t := by
    cases hs : sortJS l with
    | nil =>
      exfalso
      apply hne
      have hp := sortJS_perm l
      rw [hs] at hp
      exact hp.symm.eq_nil
    | cons a t => exact ⟨a, t, rfl⟩
  have hperm : List.Perm (sortJS l) l := sortJS_perm l
  have hPW : List.Pairwise (· < ·) (a :: t) := hsorted ▸ sortJS_sorted_lt l hnd
  have hun : getRangesFromList l = rangesAux a (a :: t) := by
    rw [getRangesFromList, hsorted]
  have hmem : ∀ x : Int, x ∈ a :: t ↔ x ∈ l := by
    intro x
    rw [← hsorted]
    exact hperm.mem_iff
  have hcov : ∀ x, covers (getRangesFromList l) x = true ↔ x ∈ l := by
    intro x
    rw [hun, rangesAux_covers t a a x (le_refl a), ← hmem x]
    simp only [List.mem_cons]
    constructor
    · rintro (⟨h1, h2⟩ | h)
      · exact Or.inl (by omega)
      · exact Or.inr h
    · rintro (h | h)
      · exact Or.inl ⟨by omega, by omega⟩
      · exact Or.inr h
  refine ⟨hcov, ?_, ?_⟩
  · rw [hun]
    exact rangesAux_starts_sorted t a a hPW (le_refl a)
  · intro cover hcover
    have hlen : (getRangesFromList l).length = (lefts a t).length := by
      rw [hun]
      exact rangesAux_length t a a
    have hLnd : (lefts a t).Nodup :=
      (lefts_pairwise t a hPW).imp (fun h => ne_of_lt h)
    have hfind : ∀ x ∈ lefts a t,
        ∃ r, cover.find?
            (fun r => decide (r.1 ≤ x) && decide (x < r.1 + r.2)) = some r := by
      intro x hx
      have hxl : x ∈ l := (hmem x).mp (lefts_mem t a x hx)
      have hcx : covers cover x = true := (hcover x).mpr hxl
      have hex : ∃ r ∈ cover,
          (decide (r.1 ≤ x) && decide (x < r.1 + r.2)) = true := by
        simpa [covers, List.any_eq_true] using hcx
      obtain ⟨r, hrmem, hrp⟩ := hex
      rcases hfa : cover.find?
          (fun r => decide (r.1 ≤ x) && decide (x < r.1 + r.2)) with _ | r0
      · exfalso
        have := List.find?_eq_none.mp hfa r hrmem
        exact this hrp
      · exact ⟨r0, hfa⟩
    classical
    let f : Int → Int × Int := fun x =>
      (cover.find? fun r => decide (r.1 ≤ x) && decide (x < r.1 + r.2)).getD
        (0, 0)
    have hfprop : ∀ x ∈ lefts a t,
        f x ∈ cover ∧ (f x).1 ≤ x ∧ x < (f x).1 + (f x).2 := by
      intro x hx
      obtain ⟨r, hr⟩ := hfind x hx
      have hmemr := List.mem_of_find?_eq_some hr
      have hpr := List.find?_some hr
      simp only [Bool.and_eq_true, decide_eq_true_eq] at hpr
      refine ⟨?_, ?_, ?_⟩ <;> simp only [f, hr, Option.getD_some]
      · exact hmemr
      · exact hpr.1
      · exact hpr.2
    have hinj : ∀ u ∈ lefts a t, ∀ v ∈ lefts a t, u < v → f u ≠ f v := by
      intro u hu v hv huv heq
      obtain ⟨hmu, hu1, hu2⟩ := hfprop u hu
      obtain ⟨hmv, hv1, hv2⟩ := hfprop v hv
      have hcvm1 : covers cover (v - 1) = true := by
        simp only [covers, List.any_eq_true]
        refine ⟨f u, hmu, ?_⟩
        simp only [Bool.and_eq_true, decide_eq_true_eq]
        rw [heq] at hu1 hu2 ⊢
        constructor <;> omega
      have hv1mem : (v - 1) ∈ l := (hcover (v - 1)).mp hcvm1
      have hnot := lefts_pred_not_mem t a hPW v hv
      exact hnot ((hmem (v - 1)).mpr hv1mem)
    have hcard : (lefts a t).toFinset.card ≤ cover.toFinset.card := by
      apply Finset.card_le_card_of_injOn f
      · intro x hx
        simp only [List.mem_toFinset] at hx ⊢
        exact (hfprop x hx).1
      · intro x hx y hy hxy
        simp only [Finset.coe_sort_coe, List.coe_toFinset, Set.mem_setOf_eq]
          at hx hy
        by_contra hne2
        rcases lt_or_gt_of_ne hne2 with h | h
        · exact hinj x hx y hy h hxy
        · exact hinj y hy x hx h hxy.symm
    calc (getRangesFromList l).length
        = (lefts a t).length := hlen
      _ = (lefts a t).toFinset.card := (List.toFinset_card_of_nodup hLnd).symm
      _ ≤ cover.toFinset.card := hcard
      _ ≤ cover.length := List.toFinset_card_le cover

/-- Claim C4 (confirmed).  For a read or write request carrying a non-empty
list `ls` of unique integers, the encoder emits one abstract frame
`[id, code, start, length]` per range where the ranges are the maximal
contiguous runs of the sorted list: the covered addresses are exactly the
elements of `ls`, the frames appear in ascending order of start address, and
no family of contiguous ranges covering exactly `ls` has fewer ranges. -/
theorem C4_list_coalescing (request : CanonicalRequest) (l : List Int)
    (code : Int) (hls : request.ls = some l) (hrg : request.rg = none)
    (hne : l ≠ []) (hnd : l.Nodup)
    (hcode : determineModbusFunction request = some code) :
    encodeIORequest request
        = some ((getRangesFromList l).map
            (fun r => [request.id, code, r.1, r.2]), getRangesFromList l)
    ∧ (∀ x, covers (getRangesFromList l) x = true ↔ x ∈ l)
    ∧ List.Pairwise (· < ·) ((getRangesFromList l).map Prod.fst)
    ∧ ∀ cover : List (Int × Int),
        (∀ x, covers cover x = true ↔ x ∈ l) →
        (getRangesFromList l).length ≤ cover.length := by
  obtain ⟨hcov, hsort, hmin⟩ := getRangesFromList_spec l hne hnd
  refine ⟨?_, hcov, hsort, hmin⟩
  unfold encodeIORequest getRanges
  rw [hcode, hrg, hls]
  rfl

/-- Witness for `C4_list_coalescing` on the list `[0, 1, 5]` of the
boolean-input read request with unit id 1. -/
theorem C4_list_coalescing_witness :
    encodeIORequest ⟨1, "r", some "bi", none, some [0, 1, 5], none, none, none⟩
        = some ((getRangesFromList [0, 1, 5]).map
            (fun r => [1, 0x02, r.1, r.2]), getRangesFromList [0, 1, 5])
    ∧ (∀ x, covers (getRangesFromList [0, 1, 5]) x = true ↔ x ∈ [0, 1, 5])
    ∧ List.Pairwise (· < ·) ((getRangesFromList [0, 1, 5]).map Prod.fst)
    ∧ ∀ cover : List (Int × Int),
        (∀ x, covers cover x = true ↔ x ∈ [0, 1, 5]) →
        (getRangesFromList [0, 1, 5]).length ≤ cover.length :=
  C4_list_coalescing ⟨1, "r", some "bi", none, some [0, 1, 5], none, none, none⟩
    [0, 1, 5] 0x02 rfl rfl (by decide) (by decide) (by decide)

/-! ## Claim C6: format round trip -/

theorem jget_mem (o : JSObj) (c : String) (v : JSValue)
    (h : jget o c = some v) : (c, v) ∈ o := by
  induction o with
  | nil => simp [jget] at h
  | cons kv rest ih =>
    obtain ⟨k, w⟩ := kv
    by_cases hk : k = c
    · subst hk
      simp [jget] at h
      simp [h]
    · simp only [jget, if_neg hk] at h
      exact List.mem_cons_of_mem _ (ih h)

theorem mbFields8_find (p : String × String) (hp : p ∈ mbFields8) :
    modbusKeywords.find? (fun q => q.1 = p.1) = some p := by
  fin_cases hp <;> decide

theorem getKey_field (p : String × String) (hp : p ∈ mbFields8)
    (format : Option String)
    (hfv : format = some "terse" ∨ format = some "verbose") :
    getKey p.1 format = some (plcOf format p) := by
  unfold getKey plcOf
  rw [mbFields8_find p hp]
  rcases hfv with hfv | hfv <;> subst hfv
  · rw [Option.map_some']
    rw [if_pos rfl, if_neg (by decide)]
  · rw [Option.map_some']
    rw [if_neg (by decide), if_pos rfl]

theorem getKey_isSome_of_registered (c : String) (format : Option String)
    (hc : c ∈ modbusKeywords.map Prod.fst) : (getKey c format).isSome := by
  unfold getKey
  obtain ⟨p, hp, hpc⟩ := List.mem_map.mp hc
  rcases hfa : modbusKeywords.find? fun q => q.1 = c with _ | q
  · exfalso
    exact (List.find?_eq_none.mp hfa p hp) (by simp [hpc])
  · rw [hfa]
    rfl

theorem parseEntry_key (data : JSObj) (format : Option String)
    (b : String × String) (kv : String × JSValue)
    (hb : parseEntry data format b = some kv) : kv.1 = b.1 := by
  unfold parseEntry at hb
  rcases hj : jget data (plcOf format b) with _ | v <;> rw [hj] at hb
  · simp at hb
  · by_cases ht : truthy v
    · simp only [ht, if_true, Option.some.injEq] at hb
      rw [← hb]
    · simp [ht] at hb

theorem parseEntry_some (data : JSObj) (format : Option String)
    (p : String × String) (kv : String × JSValue)
    (hb : parseEntry data format p = some kv) :
    ∃ v, jget data (plcOf format p) = some v ∧ truthy v = true
      ∧ kv = (p.1, substituteToken v) := by
  unfold parseEntry at hb
  rcases hj : jget data (plcOf format p) with _ | v <;> rw [hj] at hb
  · simp at hb
  · by_cases ht : truthy v
    · simp only [ht, if_true, Option.some.injEq] at hb
      exact ⟨v, rfl, ht, hb.symm⟩
    · simp [ht] at hb

theorem RequestFormatter_parse_eq (data : JSObj) (format : Option String) :
    RequestFormatter_parse data format
      = mbFields8.filterMap (parseEntry data format) := by
  unfold RequestFormatter_parse
  have hext : mbFields8.foldl
      (fun accumulator p =>
        let placeholder := if format = some "verbose" then p.2 else p.1
        match jget data placeholder with
        | some value =>
          if truthy value then jset accumulator p.1 (substituteToken value)
          else accumulator
        | none => accumulator) []
      = mbFields8.foldl
        (fun accumulator p =>
          match parseEntry data format p with
          | some kv => jset accumulator kv.1 kv.2
          | none => accumulator) [] := by
    apply List.foldl_ext
    intro acc p _
    simp only [parseEntry, plcOf]
    cases jget data (if format = some "verbose" then p.2 else p.1) with
    | none => rfl
    | some value =>
      by_cases ht : truthy value <;> simp [ht]
  rw [hext, foldl_jset_eq_append (parseEntry data format) mbFields8 []
    (by simp)
    (nodup_keys_filterMap (parseEntry data format) Prod.fst
      (fun b kv hb => parseEntry_key data format b kv hb)
      mbFields8 (by decide))]
  simp

theorem correctFormat_foldlM_some (oldObject : JSObj) (format : Option String) :
    ∀ (l : JSObj) (acc : JSObj),
      (∀ kv ∈ l, (getKey kv.1 format).isSome) →
      l.foldlM
        (fun accumulator kv =>
          (getKey kv.1 format).map fun originalKey =>
            let value :=
              match jget oldObject originalKey with
              | some w => if truthy w then w else kv.2
              | none => kv.2
            jset accumulator originalKey value)
        acc
      = some (l.foldl
          (fun accumulator kv =>
            match some (cfMap oldObject format kv) with
            | some kv2 => jset accumulator kv2.1 kv2.2
            | none => accumulator) acc) := by
  intro l
  induction l with
  | nil => intro acc _; rfl
  | cons kv rest ih =>
    intro acc hreg
    obtain ⟨k, hk⟩ := Option.isSome_iff_exists.mp
      (hreg kv (List.mem_cons_self kv rest))
    have hstep : cfMap oldObject format kv
        = (k, match jget oldObject k with
              | some w => if truthy w then w else kv.2
              | none => kv.2) := by
      simp only [cfMap, hk, Option.getD_some]
    rw [List.foldlM_cons, hk, Option.map_some', Option.bind_eq_bind,
      Option.some_bind]
    rw [ih _ (fun kv2 h2 => hreg kv2 (List.mem_cons_of_mem kv h2))]
    rw [List.foldl_cons, hstep]

theorem RequestFormatter_correctFormat_eq (newObject oldObject : JSObj)
    (format : Option String)
    (hreg : ∀ kv ∈ newObject, (getKey kv.1 format).isSome)
    (hnd : (newObject.map fun kv => (getKey kv.1 format).getD kv.1).Nodup) :
    RequestFormatter_correctFormat newObject oldObject format
      = some (newObject.map (cfMap oldObject format)) := by
  unfold RequestFormatter_correctFormat
  rw [correctFormat_foldlM_some oldObject format newObject [] hreg]
  congr 1
  rw [foldl_jset_eq_append (fun kv => some (cfMap oldObject format kv))
    newObject []
    (by simp)
    (by
      have heq : (newObject.filterMap
            fun kv => some (cfMap oldObject format kv)).map Prod.fst
          = newObject.map fun kv => (getKey kv.1 format).getD kv.1 := by
        rw [show (fun kv => some (cfMap oldObject format kv))
            = some ∘ cfMap oldObject format from rfl]
        rw [List.filterMap_eq_map, List.map_map]
        rfl
      rw [heq]
      exact hnd)]
  rw [show (fun kv => some (cfMap oldObject format kv))
      = some ∘ cfMap oldObject format from rfl]
  rw [List.filterMap_eq_map]
  simp

theorem roundtrip_core (req : JSObj) (format : Option String)
    (hfv : format = some "terse" ∨ format = some "verbose")
    (hkeys : ∀ kv ∈ req, kv.1 ∈ mbFields8.map (plcOf format))
    (htruthy : ∀ kv ∈ req, truthy kv.2 = true)
    (hnd : (req.map Prod.fst).Nodup)
    (hinj : ∀ p ∈ mbFields8, ∀ q ∈ mbFields8,
      plcOf format p = plcOf format q → p = q) :
    ∃ r, RequestFormatter_correctFormat (RequestFormatter_parse req format)
        req format = some r
      ∧ JSObj.equiv r req := by
  have hparse := RequestFormatter_parse_eq req format
  have hparsekeys :
      ((mbFields8.filterMap (parseEntry req format)).map Prod.fst).Nodup :=
    nodup_keys_filterMap (parseEntry req format) Prod.fst
      (fun b kv hb => parseEntry_key req format b kv hb)
      mbFields8 (by decide)
  have hmemfields : ∀ c ∈ (mbFields8.filterMap (parseEntry req format)).map
      Prod.fst, c ∈ mbFields8.map Prod.fst :=
    fun c hc => mem_keys_filterMap (parseEntry req format) Prod.fst
      (fun b kv hb => parseEntry_key req format b kv hb)
      mbFields8 c hc
  have hentry : ∀ kv ∈ mbFields8.filterMap (parseEntry req format),
      ∃ p ∈ mbFields8, parseEntry req format p = some kv ∧ kv.1 = p.1 := by
    intro kv hkv
    obtain ⟨p, hp, hpe⟩ := List.mem_filterMap.mp hkv
    exact ⟨p, hp, hpe, parseEntry_key req format p kv hpe⟩
  have hreg : ∀ kv ∈ mbFields8.filterMap (parseEntry req format),
      (getKey kv.1 format).isSome := by
    intro kv hkv
    obtain ⟨q, hq, _, hq1⟩ := hentry kv hkv
    rw [hq1]
    exact getKey_isSome_of_registered q.1 format
      (List.mem_map_of_mem Prod.fst
        (List.mem_append_left mbExtraKeywords hq))
  have hcfnd : ((mbFields8.filterMap (parseEntry req format)).map
      fun kv => (getKey kv.1 format).getD kv.1).Nodup := by
    have hrw : ((mbFields8.filterMap (parseEntry req format)).map
        fun kv => (getKey kv.1 format).getD kv.1)
        = ((mbFields8.filterMap (parseEntry req format)).map Prod.fst).map
          fun c => (getKey c format).getD c := by
      rw [List.map_map]
      rfl
    rw [hrw]
    apply List.Nodup.map_on _ hparsekeys
    intro x hx y hy hxy
    obtain ⟨px, hpx, hpx1⟩ := List.mem_map.mp (hmemfields x hx)
    obtain ⟨py, hpy, hpy1⟩ := List.mem_map.mp (hmemfields y hy)
    rw [← hpx1, ← hpy1] at hxy ⊢
    rw [getKey_field px hpx format hfv, getKey_field py hpy format hfv,
      Option.getD_some, Option.getD_some] at hxy
    rw [hinj px hpx py hpy hxy]
  have hcf := RequestFormatter_correctFormat_eq
    (mbFields8.filterMap (parseEntry req format)) req format hreg hcfnd
  refine ⟨(mbFields8.filterMap (parseEntry req format)).map
    (cfMap req format), ?_, ?_⟩
  · rw [hparse]
    exact hcf
  intro key
  by_cases hkey : key ∈ mbFields8.map (plcOf format)
  · obtain ⟨p, hp, hpk⟩ := List.mem_map.mp hkey
    subst hpk
    rcases hj : jget req (plcOf format p) with _ | v
    · rw [jget_eq_none_iff]
      intro hmemk
      obtain ⟨kv, hkv, hkvk⟩ := List.mem_map.mp hmemk
      obtain ⟨kv0, hkv0, hkv0e⟩ := List.mem_map.mp hkv
      obtain ⟨q, hq, hqe, hq1⟩ := hentry kv0 hkv0
      rw [← hkv0e] at hkvk
      simp only [cfMap] at hkvk
      rw [hq1, getKey_field q hq format hfv] at hkvk
      simp only [Option.getD_some] at hkvk
      have hqp : q = p := hinj q hq p hp hkvk
      subst hqp
      obtain ⟨v, hv, _, _⟩ := parseEntry_some req format q kv0 hqe
      rw [hj] at hv
      exact absurd hv (by simp)
    · have htv : truthy v = true := htruthy _ (jget_mem req _ v hj)
      have hpe : parseEntry req format p
          = some (p.1, substituteToken v) := by
        unfold parseEntry
        rw [hj]
        simp [htv]
      have hmem0 : (p.1, substituteToken v)
          ∈ mbFields8.filterMap (parseEntry req format) :=
        List.mem_filterMap.mpr ⟨p, hp, hpe⟩
      have hcfval : cfMap req format (p.1, substituteToken v)
          = (plcOf format p, v) := by
        simp only [cfMap]
        rw [getKey_field p hp format hfv]
        simp only [Option.getD_some]
        rw [hj]
        simp [htv]
      have hmem1 : (plcOf format p, v)
          ∈ (mbFields8.filterMap (parseEntry req format)).map
            (cfMap req format) := by
        rw [← hcfval]
        exact List.mem_map_of_mem (cfMap req format) hmem0
      have hndmap : (((mbFields8.filterMap (parseEntry req format)).map
          (cfMap req format)).map Prod.fst).Nodup := by
        have hrw : ((mbFields8.filterMap (parseEntry req format)).map
            (cfMap req format)).map Prod.fst
            = (mbFields8.filterMap (parseEntry req format)).map
              fun kv => (getKey kv.1 format).getD kv.1 := by
          rw [List.map_map]
          rfl
        rw [hrw]
        exact hcfnd
      rw [jget_eq_some_of_mem _ _ _ hmem1 hndmap]
  · have hreq : jget req key = none := by
      rw [jget_eq_none_iff]
      intro hmemk
      obtain ⟨kv, hkv, hkvk⟩ := List.mem_map.mp hmemk
      exact hkey (hkvk ▸ hkeys kv hkv)
    rw [hreq, jget_eq_none_iff]
    intro hmemk
    obtain ⟨kv, hkv, hkvk⟩ := List.mem_map.mp hmemk
    obtain ⟨kv0, hkv0, hkv0e⟩ := List.mem_map.mp hkv
    obtain ⟨q, hq, _, hq1⟩ := hentry kv0 hkv0
    rw [← hkv0e] at hkvk
    simp only [cfMap] at hkvk
    rw [hq1, getKey_field q hq format hfv] at hkvk
    simp only [Option.getD_some] at hkvk
    exact hkey (hkvk ▸ List.mem_map_of_mem (plcOf format) hq)

/-- Claim C6 (confirmed).  For every syntactically valid request — its keys
drawn (without repetition) from the detected format's field names with truthy
values, as the schema guarantees — projecting the canonicalised form back
into the detected format succeeds and is the identity:
`correctFormat(parse(req, f), req, f) = req` where `f = detectedFormat req`
(terse when the request has `id`, verbose when it has `identifier`). -/
theorem C6_roundtrip (req : JSObj) (f : String)
    (hdet : detectedFormat req = some f)
    (hkeys : ∀ kv ∈ req, kv.1 ∈ mbFields8.map (plcOf (some f)))
    (htruthy : ∀ kv ∈ req, truthy kv.2 = true)
    (hnd : (req.map Prod.fst).Nodup) :
    ∃ r, RequestFormatter_correctFormat (RequestFormatter_parse req (some f))
        req (some f) = some r
      ∧ JSObj.equiv r req := by
  have hf : f = "terse" ∨ f = "verbose" := by
    unfold detectedFormat at hdet
    by_cases h1 : (jget req "id").isSome
    · rw [if_pos h1] at hdet
      exact Or.inl (Option.some.injEq .. ▸ hdet.symm ▸ rfl)
    · rw [if_neg h1] at hdet
      by_cases h2 : (jget req "identifier").isSome
      · rw [if_pos h2] at hdet
        exact Or.inr (Option.some.injEq .. ▸ hdet.symm ▸ rfl)
      · rw [if_neg h2] at hdet
        exact absurd hdet (by simp)
  apply roundtrip_core req (some f)
    (by rcases hf with hf | hf <;> subst hf <;> simp) hkeys htruthy hnd
  rcases hf with hf | hf <;> subst hf <;> decide

/-- Witness for `C6_roundtrip` at the spec's verbose example request. -/
theorem C6_roundtrip_witness :
    detectedFormat verboseReadRequest = some "verbose"
    ∧ ∃ r, RequestFormatter_correctFormat
          (RequestFormatter_parse verboseReadRequest (some "verbose"))
          verboseReadRequest (some "verbose") = some r
        ∧ JSObj.equiv r verboseReadRequest :=
  ⟨by decide,
   C6_roundtrip verboseReadRequest "verbose" (by decide) (by decide)
     (by decide) (by decide)⟩

/-! ## Claim C9 (amended form) -/

theorem jset_mem_self (o : JSObj) (c : String) (v : JSValue) :
    (c, v) ∈ jset o c v := by
  induction o with
  | nil => simp [jset]
  | cons kv rest ih =>
    by_cases h : kv.1 = c
    · simp only [jset, if_pos h]
      exact List.mem_cons.mpr (Or.inl (by rw [h]))
    · simp only [jset, if_neg h]
      exact List.mem_cons_of_mem _ ih

theorem jset_mem_of_ne (o : JSObj) (c c' : String) (v v' : JSValue)
    (h : (c, v) ∈ o) (hne : c ≠ c') : (c, v) ∈ jset o c' v' := by
  induction o with
  | nil => simp at h
  | cons kv rest ih =>
    by_cases hk : kv.1 = c'
    · simp only [jset, if_pos hk]
      rcases List.mem_cons.mp h with h1 | h1
      · exfalso
        apply hne
        rw [← hk, ← h1]
      · exact List.mem_cons_of_mem _ h1
    · simp only [jset, if_neg hk]
      rcases List.mem_cons.mp h with h1 | h1
      · exact List.mem_cons.mpr (Or.inl h1)
      · exact List.mem_cons_of_mem _ (ih h1)

theorem errorResponse_mem_status (request : ClientRequest) (m : String) :
    (mbSTATUS, JSValue.bool false) ∈ errorResponse request (some m) := by
  unfold errorResponse
  exact jset_mem_of_ne _ _ _ _ _ (jset_mem_self request.content mbSTATUS
    (.bool false)) (by decide)

theorem errorResponse_mem_message (request : ClientRequest) (m : String) :
    (mbMESSAGE, JSValue.str m) ∈ errorResponse request (some m) :=
  jset_mem_self _ mbMESSAGE (.str m)

/-- Claim C9 as amended: any collected response buffer *exactly equal* to the
four-byte `"Null"` sentinel (rather than merely beginning with it) makes the
published response carry `status=false` and `message="Error Retrieving
Data"` in the caller's vocabulary — under the projected status and message
keys `kS`, `kM` — provided the original request does not itself carry those
keys and the projected keys of the error record are all registered and
unambiguous, which holds for every validated request. -/
theorem C9_amended_exact_sentinel (request : ClientRequest) (kS kM : String)
    (hbuf : request.bufferResponses.any (fun buffer => buffer = nullBuffer)
      = true)
    (hkS : getKey mbSTATUS request.originalformat = some kS)
    (hkM : getKey mbMESSAGE request.originalformat = some kM)
    (hSold : jget request.originalContent kS = none)
    (hMold : jget request.originalContent kM = none)
    (hreg : ∀ kv ∈ errorResponse request (some "Error Retrieving Data"),
      (getKey kv.1 request.originalformat).isSome)
    (hnd : ((errorResponse request (some "Error Retrieving Data")).map
      (fun kv => (getKey kv.1 request.originalformat).getD kv.1)).Nodup) :
    ∃ r, processClientResponse request false = some r
      ∧ jget r kS = some (.bool false)
      ∧ jget r kM = some (.str "Error Retrieving Data") := by
  have hstep : processClientResponse request false
      = RequestFormatter_correctFormat
          (errorResponse request (some "Error Retrieving Data"))
          request.originalContent request.originalformat := by
    simp [processClientResponse, hbuf]
  have hcf := RequestFormatter_correctFormat_eq
    (errorResponse request (some "Error Retrieving Data"))
    request.originalContent request.originalformat hreg hnd
  have hndmap : (((errorResponse request (some "Error Retrieving Data")).map
      (cfMap request.originalContent request.originalformat)).map
        Prod.fst).Nodup := by
    have hrw : ((errorResponse request (some "Error Retrieving Data")).map
        (cfMap request.originalContent request.originalformat)).map Prod.fst
        = (errorResponse request (some "Error Retrieving Data")).map
          (fun kv => (getKey kv.1 request.originalformat).getD kv.1) := by
      rw [List.map_map]
      rfl
    rw [hrw]
    exact hnd
  refine ⟨(errorResponse request (some "Error Retrieving Data")).map
    (cfMap request.originalContent request.originalformat),
    hstep.trans hcf, ?_, ?_⟩
  · have hval : cfMap request.originalContent request.originalformat
        (mbSTATUS, JSValue.bool false) = (kS, JSValue.bool false) := by
      simp only [cfMap, hkS, Option.getD_some]
      rw [hSold]
    apply jget_eq_some_of_mem _ _ _ _ hndmap
    rw [← hval]
    exact List.mem_map_of_mem _ (errorResponse_mem_status request _)
  · have hval : cfMap request.originalContent request.originalformat
        (mbMESSAGE, JSValue.str "Error Retrieving Data")
        = (kM, JSValue.str "Error Retrieving Data") := by
      simp only [cfMap, hkM, Option.getD_some]
      rw [hMold]
    apply jget_eq_some_of_mem _ _ _ _ hndmap
    rw [← hval]
    exact List.mem_map_of_mem _ (errorResponse_mem_message request _)

/-- Witness for `C9_amended_exact_sentinel`: a raw request whose one
collected buffer is exactly the sentinel. -/
theorem C9_amended_exact_sentinel_witness :
    ∃ r, processClientResponse
        { ClientRequest_new [("id", .num 1), ("fn", .str "m"),
            ("pk", .arr [1])] (some "terse") "client" "device" with
          bufferResponses := [nullBuffer] } false = some r
      ∧ jget r mbSTATUS = some (.bool false)
      ∧ jget r mbMESSAGE = some (.str "Error Retrieving Data") :=
  C9_amended_exact_sentinel
    { ClientRequest_new [("id", .num 1), ("fn", .str "m"),
        ("pk", .arr [1])] (some "terse") "client" "device" with
      bufferResponses := [nullBuffer] }
    mbSTATUS mbMESSAGE
    (by decide) (by decide) (by decide) (by decide) (by decide) (by decide)
    (by decide)

/-! ## Claim C10: unidentified format -/

/-- Claim C10 (confirmed).  For every inbound request-topic message whose
payload is not valid JSON (`parsedPayload = none`, so the branch works on
`{}`) or whose parsed object has neither `id` nor `identifier`, the gateway
enqueues nothing and publishes exactly one message, on
`client/device/response`: the payload with `"Unidentified format"` written
under the key `getKey(mb.MESSAGE, null) = "message"` — the verbose message
key, because `getKey` selects the terse column only for the exact format
string `'terse'`.  This holds for every pair of compiled AJV validators,
which the branch never consults. -/
theorem C10_unidentified_format (ajvTerse ajvVerbose : JSObj → AjvOutcome)
    (client device : String) (queue : List ClientRequest)
    (parsedPayload : Option JSObj)
    (hid : jget (parsedPayload.getD []) "id" = none)
    (hident : jget (parsedPayload.getD []) "identifier" = none) :
    getKey mbMESSAGE none = some "message"
    ∧ handleRequest ajvTerse ajvVerbose client device queue parsedPayload
        = (queue,
           [(client ++ "/" ++ device ++ "/response",
             jset (parsedPayload.getD []) "message"
               (.str "Unidentified format"))]) := by
  refine ⟨by decide, ?_⟩
  unfold handleRequest Validator_validate
  simp only [hid, hident]
  rfl

/-- Witness for `C10_unidentified_format`: an unparsable payload (`{}` after
the failed `JSON.parse`) with trivial AJV validators. -/
theorem C10_unidentified_format_witness :
    (jget ((none : Option JSObj).getD []) "id" = none
      ∧ jget ((none : Option JSObj).getD []) "identifier" = none)
    ∧ (getKey mbMESSAGE none = some "message"
       ∧ handleRequest (fun _ => ⟨true, "", none⟩) (fun _ => ⟨true, "", none⟩)
           "client" "device" [] none
         = ([],
            [("client" ++ "/" ++ "device" ++ "/response",
              jset ((none : Option JSObj).getD []) "message"
                (.str "Unidentified format"))])) :=
  ⟨⟨by decide, by decide⟩,
   C10_unidentified_format (fun _ => ⟨true, "", none⟩)
     (fun _ => ⟨true, "", none⟩) "client" "device" [] none
     (by decide) (by decide)⟩

end MqttModbus
